import Mathlib

/-!
Shallow embedding of the caching-proxy repository (Go) and proofs about its
specification claims.  The embedding follows the source files
`internal/cache/filecache/filecache.go` and `internal/proxy/proxy.go`:
the cache directory is modelled as an association list from file name to
file content plus last-modified time, Go byte slices and strings are
modelled as Lean strings (byte sequences; MD5 hashes the UTF-8 bytes),
`time.Duration` and instants are modelled as integers, and the request
dispatcher threads the store state explicitly together with a trace of the
store operations it performs.  The three asynchronous cache writes fired on
a miss (`go p.cache.Set...`) are modelled in program order as one
linearization.
-/

set_option autoImplicit false
set_option maxRecDepth 100000

namespace CachingProxy

/-- UTF-8 encoding of one character, as its list of bytes. -/
def utf8Char (c : Char) : List Nat :=
  let n := c.toNat
  if n < 128 then [n]
  else if n < 2048 then [192 + n / 64, 128 + n % 64]
  else if n < 65536 then [224 + n / 4096, 128 + n / 64 % 64, 128 + n % 64]
  else [240 + n / 262144, 128 + n / 4096 % 64, 128 + n / 64 % 64, 128 + n % 64]

/-- Bytes of a string (Go strings are byte sequences; Go source strings are UTF-8). -/
def strBytes (s : String) : List Nat := (s.data.map utf8Char).flatten

/-! ## MD5 (crypto/md5 as used by `getRequestCacheKey` / `getMD5Hash`) -/

/-- Modulus for 32-bit words. -/
def M32 : Nat := 4294967296

/-- Left-rotation of a 32-bit word. -/
def rotl32 (x n : Nat) : Nat := ((x <<< n) ||| (x >>> (32 - n))) % M32

def fF (b c d : Nat) : Nat := (b &&& c) ||| ((b ^^^ 4294967295) &&& d)
def fG (b c d : Nat) : Nat := (d &&& b) ||| ((d ^^^ 4294967295) &&& c)
def fH (b c d : Nat) : Nat := b ^^^ c ^^^ d
def fI (b c d : Nat) : Nat := c ^^^ (b ||| (d ^^^ 4294967295))

/-- MD5 sine-derived round constants (RFC 1321). -/
def md5K : List Nat :=
  [3614090360, 3905402710, 606105819, 3250441966, 4118548399, 1200080426,
   2821735955, 4249261313, 1770035416, 2336552879, 4294925233, 2304563134,
   1804603682, 4254626195, 2792965006, 1236535329, 4129170786, 3225465664,
   643717713, 3921069994, 3593408605, 38016083, 3634488961, 3889429448,
   568446438, 3275163606, 4107603335, 1163531501, 2850285829, 4243563512,
   1735328473, 2368359562, 4294588738, 2272392833, 1839030562, 4259657740,
   2763975236, 1272893353, 4139469664, 3200236656, 681279174, 3936430074,
   3572445317, 76029189, 3654602809, 3873151461, 530742520, 3299628645,
   4096336452, 1126891415, 2878612391, 4237533241, 1700485571, 2399980690,
   4293915773, 2240044497, 1873313359, 4264355552, 2734768916, 1309151649,
   4149444226, 3174756917, 718787259, 3951481745]

/-- MD5 per-round shift amounts (RFC 1321). -/
def md5S : List Nat :=
  [7, 12, 17, 22, 7, 12, 17, 22, 7, 12, 17, 22, 7, 12, 17, 22,
   5, 9, 14, 20, 5, 9, 14, 20, 5, 9, 14, 20, 5, 9, 14, 20,
   4, 11, 16, 23, 4, 11, 16, 23, 4, 11, 16, 23, 4, 11, 16, 23,
   6, 10, 15, 21, 6, 10, 15, 21, 6, 10, 15, 21, 6, 10, 15, 21]

/-- Little-endian 32-bit word `g` of a 64-byte chunk. -/
def md5Word (chunk : List Nat) (g : Nat) : Nat :=
  chunk.getD (4 * g) 0 + 256 * chunk.getD (4 * g + 1) 0 +
    65536 * chunk.getD (4 * g + 2) 0 + 16777216 * chunk.getD (4 * g + 3) 0

/-- One of the 64 MD5 rounds. -/
def md5Step (chunk : List Nat) (st : Nat × Nat × Nat × Nat) (i : Nat) :
    Nat × Nat × Nat × Nat :=
  let (a, b, c, d) := st
  let fg : Nat × Nat :=
    if i < 16 then (fF b c d, i)
    else if i < 32 then (fG b c d, (5 * i + 1) % 16)
    else if i < 48 then (fH b c d, (3 * i + 5) % 16)
    else (fI b c d, (7 * i) % 16)
  let tmp := (fg.1 + a + md5K.getD i 0 + md5Word chunk fg.2) % M32
  (d, (b + rotl32 tmp (md5S.getD i 0)) % M32, b, c)

/-- Process one 64-byte chunk. -/
def md5Chunk (st : Nat × Nat × Nat × Nat) (chunk : List Nat) :
    Nat × Nat × Nat × Nat :=
  let r := (List.range 64).foldl (md5Step chunk) st
  ((st.1 + r.1) % M32, (st.2.1 + r.2.1) % M32,
   (st.2.2.1 + r.2.2.1) % M32, (st.2.2.2 + r.2.2.2) % M32)

/-- MD5 padding: a 0x80 byte, zeros to 56 mod 64, then the bit length in 8
little-endian bytes. -/
def md5Pad (msg : List Nat) : List Nat :=
  let len := msg.length
  let zeros := (120 - (len + 1) % 64) % 64
  msg ++ 128 :: List.replicate zeros 0 ++
    (List.range 8).map (fun i => 8 * len / 256 ^ i % 256)

/-- Split a byte list into 64-byte chunks (fuel-driven so that it reduces in
the kernel). -/
def toChunksF : Nat → List Nat → List (List Nat)
  | 0, _ => []
  | _, [] => []
  | fuel + 1, l => l.take 64 :: toChunksF fuel (l.drop 64)

def md5Init : Nat × Nat × Nat × Nat := (1732584193, 4023233417, 2562383102, 271733878)

/-- The four 32-bit state words of the MD5 digest of a byte sequence. -/
def md5Digest (msg : List Nat) : Nat × Nat × Nat × Nat :=
  let p := md5Pad msg
  (toChunksF p.length p).foldl md5Chunk md5Init

/-- Little-endian bytes of a 32-bit word. -/
def wordBytes (n : Nat) : List Nat :=
  [n % 256, n / 256 % 256, n / 65536 % 256, n / 16777216 % 256]

/-- The 16 digest bytes of MD5. -/
def md5Bytes (msg : List Nat) : List Nat :=
  let d := md5Digest msg
  wordBytes d.1 ++ wordBytes d.2.1 ++ wordBytes d.2.2.1 ++ wordBytes d.2.2.2

/-- Lowercase hex digit. -/
def hexDigit (n : Nat) : Char := Char.ofNat (if n < 10 then 48 + n else 87 + n)

/-- Lowercase hex encoding of the MD5 digest (hex.EncodeToString of md5.Sum). -/
def md5hex (msg : List Nat) : String :=
  String.mk ((md5Bytes msg).foldr (fun b acc => hexDigit (b / 16) :: hexDigit (b % 16) :: acc) [])

/-- Source `getMD5Hash` (proxy.go): hex-encoded MD5 of the text's bytes. -/
def getMD5Hash (text : String) : String := md5hex (strBytes text)

/-! ## The cache directory (filecache.go)

A file is its content (a byte string) plus its last-modified time; the
directory is an association list from file name to file.  `os.Stat`,
`os.ReadFile`, `os.Create` and `os.Remove` succeed in this model (their
OS-level failure branches in the source are noted where they occur). -/

structure FileEntry where
  data : String
  modTime : Int
deriving DecidableEq, Repr

abbrev FS := List (String × FileEntry)

/-- File lookup by name (`os.Stat` / `os.ReadFile`). -/
def fsLookup : FS → String → Option FileEntry
  | [], _ => none
  | p :: rest, k => if p.1 = k then some p.2 else fsLookup rest k

/-- File removal by name (`os.Remove`). -/
def fsRemove : FS → String → FS
  | [], _ => []
  | p :: rest, k => if p.1 = k then fsRemove rest k else p :: fsRemove rest k

/-- File creation or truncation (`os.Create` + `Write`); the new file's
last-modified time is the current instant. -/
def fsWrite (fs : FS) (k : String) (d : String) (now : Int) : FS :=
  (k, ⟨d, now⟩) :: fsRemove fs k

/-- One iteration of the loop body of `deleteCacheByExpiration`: `none`
signals the `return` taken when `os.Stat` fails for the file. -/
def expireStep (t now : Int) (fs : FS) (k : String) : Option FS :=
  match fsLookup fs k with
  | none => none
  | some e => some (if now - e.modTime > t then fsRemove fs k else fs)

/-- The `for _, cacheKey := range ...` loop of `deleteCacheByExpiration`:
each listed file is removed when its age exceeds the timeout; a failing
`os.Stat` (missing file) returns from the whole function early. -/
def expireLoop (t now : Int) : FS → List String → FS
  | fs, [] => fs
  | fs, k :: ks =>
    match expireStep t now fs k with
    | none => fs
    | some fs1 => expireLoop t now fs1 ks

/-- Source `deleteCacheByExpiration`: with a positive timeout, walk the keys
`key`, `key + "-status"`, `key + "-headers"` in order, removing each file
whose age exceeds the timeout, and return early at the first missing file. -/
def deleteCacheByExpiration (t now : Int) (fs : FS) (key : String) : FS :=
  if t ≤ 0 then fs
  else expireLoop t now fs [key, key ++ "-status", key ++ "-headers"]

/-- Source `Has`: lazily expire, then report whether the file exists. -/
def cacheHas (t now : Int) (fs : FS) (key : String) : Bool × FS :=
  let fs1 := deleteCacheByExpiration t now fs key
  ((fsLookup fs1 key).isSome, fs1)

/-- Source `Get`: lazily expire, then read the file; a missing file yields
an empty byte slice and `false`. -/
def cacheGet (t now : Int) (fs : FS) (key : String) : (String × Bool) × FS :=
  let fs1 := deleteCacheByExpiration t now fs key
  match fsLookup fs1 key with
  | none => (("", false), fs1)
  | some e => ((e.data, true), fs1)

/-! ## Decimal integers (strconv.Itoa / strconv.Atoi on 64-bit int) -/

def digitChar (d : Nat) : Char := Char.ofNat (48 + d)

/-- Little-endian decimal digits of a natural number, fuel-driven. -/
def natDigitsRev : Nat → Nat → List Nat
  | 0, _ => []
  | fuel + 1, n => if n = 0 then [] else n % 10 :: natDigitsRev fuel (n / 10)

/-- Decimal representation of a natural number. -/
def itoaNat (n : Nat) : String :=
  if n = 0 then "0" else String.mk (((natDigitsRev (n + 1) n).reverse).map digitChar)

/-- Source-level `strconv.Itoa` on the stored status code. -/
def itoa : Int → String
  | Int.ofNat n => itoaNat n
  | Int.negSucc n => "-" ++ itoaNat (n + 1)

def isDigitCh (c : Char) : Bool := 48 ≤ c.toNat && c.toNat ≤ 57

def digitsVal (l : List Char) : Nat := l.foldl (fun a c => 10 * a + (c.toNat - 48)) 0

/-- Digits (after the optional sign) of `strconv.Atoi`: all characters must
be decimal digits, at least one, and the value must fit a 64-bit int. -/
def atoiCore (neg : Bool) (ds : List Char) : Option Int :=
  if ds = [] then none
  else if ds.all isDigitCh then
    let n := digitsVal ds
    if neg then
      if n ≤ 9223372036854775808 then some (-(n : Int)) else none
    else if n ≤ 9223372036854775807 then some ((n : Int)) else none
  else none

/-- Source-level `strconv.Atoi`: optional sign, decimal digits, 64-bit range. -/
def atoi (s : String) : Option Int :=
  match s.data with
  | [] => none
  | c :: rest =>
    if c = '-' then atoiCore true rest
    else if c = '+' then atoiCore false rest
    else atoiCore false (c :: rest)

/-! ## HTTP headers (net/http `Header`, textproto canonicalization)

A header map is an association list from name to the list of values; Go's
`http.Header` is a hash map, whose iteration order the model fixes as the
list order (the per-name value lists, which the claims are about, do not
depend on that order). -/

abbrev Headers := List (String × List String)

/-- Token characters of RFC 7230 as used by `validHeaderFieldByte`. -/
def isTokenChar (c : Char) : Bool :=
  let n := c.toNat
  (48 ≤ n && n ≤ 57) || (65 ≤ n && n ≤ 90) || (97 ≤ n && n ≤ 122) ||
    n == 33 || n == 35 || n == 36 || n == 37 || n == 38 || n == 39 || n == 42 ||
    n == 43 || n == 45 || n == 46 || n == 94 || n == 95 || n == 96 || n == 124 || n == 126

def toUpperA (c : Char) : Char :=
  if 97 ≤ c.toNat && c.toNat ≤ 122 then Char.ofNat (c.toNat - 32) else c

def toLowerA (c : Char) : Char :=
  if 65 ≤ c.toNat && c.toNat ≤ 90 then Char.ofNat (c.toNat + 32) else c

/-- Case-normalisation pass of `canonicalMIMEHeaderKey`: uppercase the first
letter and letters after a hyphen, lowercase the rest. -/
def canonChars : Bool → List Char → List Char
  | _, [] => []
  | upper, c :: rest =>
    let c2 := if upper then toUpperA c else toLowerA c
    c2 :: canonChars (c2 = '-') rest

/-- `textproto.CanonicalMIMEHeaderKey`: names with a non-token byte are
returned unchanged, otherwise their case is normalised. -/
def canonicalKey (s : String) : String :=
  if s.data.all isTokenChar then String.mk (canonChars true s.data) else s

def addVal : Headers → String → String → Headers
  | [], k, v => [(k, [v])]
  | (n, vs) :: rest, k, v =>
    if n = k then (n, vs ++ [v]) :: rest else (n, vs) :: addVal rest k v

/-- `http.Header.Add`: canonicalise the name, append the value. -/
def headersAdd (h : Headers) (name value : String) : Headers :=
  addVal h (canonicalKey name) value

def setVal : Headers → String → String → Headers
  | [], k, v => [(k, [v])]
  | (n, vs) :: rest, k, v =>
    if n = k then (k, [v]) :: rest else (n, vs) :: setVal rest k v

/-- `http.Header.Set`: canonicalise the name, replace all values by one. -/
def headersSet (h : Headers) (name value : String) : Headers :=
  setVal h (canonicalKey name) value

def lookupVals : Headers → String → Option (List String)
  | [], _ => none
  | (n, vs) :: rest, k => if n = k then some vs else lookupVals rest k

/-- `http.Header.Get`: first value under the canonical name, or "". -/
def headersGet (h : Headers) (name : String) : String :=
  match lookupVals h (canonicalKey name) with
  | none => ""
  | some vs => vs.headD ""

/-! ## Header serialization (`SetHeaders`) and parsing (`GetHeaders`) -/

/-- The characters `fmt.Sprintf("%s: %s\n", n, v)` appends per value. -/
def serializeValsC (n : List Char) : List String → List Char
  | [] => []
  | v :: vs => n ++ ':' :: ' ' :: (v.data ++ '\n' :: serializeValsC n vs)

/-- Bytes written by `SetHeaders`: one `Name: Value` line per value. -/
def serializeHeadersC : Headers → List Char
  | [] => []
  | (n, vs) :: rest => serializeValsC n.data vs ++ serializeHeadersC rest

def serializeHeaders (h : Headers) : String := String.mk (serializeHeadersC h)

/-- Strip one trailing carriage return (`dropCR` of bufio.ScanLines). -/
def dropCR : List Char → List Char
  | [] => []
  | [c] => if c = '\r' then [] else [c]
  | c :: rest => c :: dropCR rest

/-- Tokens of `bufio.Scanner` with `ScanLines` before CR-stripping: split at
newlines, with a final token for a trailing partial line. -/
def scanLinesRaw : List Char → List (List Char)
  | [] => []
  | c :: rest =>
    if c = '\n' then [] :: scanLinesRaw rest
    else
      match scanLinesRaw rest with
      | [] => [[c]]
      | l :: ls => (c :: l) :: ls

/-- The CR-stripped line tokens of the bytes, disregarding the scanner's
token-size limit.  This is the notion "the stored bytes contain such a
line"; the limited scan the source performs is `scanTokens` below, which
yields exactly these tokens when every line is within the limit. -/
def scanLines (s : List Char) : List (List Char) := (scanLinesRaw s).map dropCR

/-- Byte length of a character sequence under UTF-8 (Go strings are byte
sequences; `bufio.Scanner` counts bytes). -/
def charBytesLen (l : List Char) : Nat := (l.map (fun c => (utf8Char c).length)).sum

/-- `bufio.MaxScanTokenSize`, the scanner's default buffer limit: a line
whose content reaches this many bytes makes `Scan` fail with `ErrTooLong`. -/
def maxScanTokenSize : Nat := 65536

/-- The scan of `bufio.Scanner` over the raw line pieces: each piece under
the token-size limit is emitted CR-stripped; the first piece of
`maxScanTokenSize` or more bytes stops the scan with an error
(`ErrTooLong`), recorded in the boolean, and no further piece is read. -/
def scanTokens : List (List Char) → List (List Char) × Bool
  | [] => ([], true)
  | p :: ps =>
    if maxScanTokenSize ≤ charBytesLen p then ([], false)
    else (dropCR p :: (scanTokens ps).1, (scanTokens ps).2)

def startsWithSpace : List Char → Bool
  | [] => false
  | c :: _ => c == ' '

/-- `strings.SplitN(line, ": ", 2)`: split around the first occurrence of
`": "`, or `none` when the separator is absent. -/
def splitColonSpace : List Char → Option (List Char × List Char)
  | [] => none
  | c :: rest =>
    if c = ':' ∧ startsWithSpace rest then some ([], rest.tail)
    else
      match splitColonSpace rest with
      | none => none
      | some (a, b) => some (c :: a, b)

/-- The line loop of `GetHeaders`: skip blank lines, fail on a line without
the separator, otherwise `headers.Add(name, value)`. -/
def parseLines : List (List Char) → Headers → Option Headers
  | [], acc => some acc
  | l :: rest, acc =>
    if l = [] then parseLines rest acc
    else
      match splitColonSpace l with
      | none => none
      | some (n, v) => parseLines rest (headersAdd acc (String.mk n) (String.mk v))

/-- Headers parsed from stored bytes (`GetHeaders` after the raw read): the
loop consumes the tokens the limited scan produced, failing on a non-blank
line without the separator; after the loop, `scanner.Err()` — set to
`ErrTooLong` when a line reached the token-size limit — also yields the
failure result. -/
def parseHeaders (s : String) : Option Headers :=
  let scan := scanTokens (scanLinesRaw s.data)
  match parseLines scan.1 [] with
  | none => none
  | some h => if scan.2 then some h else none

/-- Source `GetInt`: raw read, then `strconv.Atoi`; any failure is `(0, false)`. -/
def cacheGetInt (t now : Int) (fs : FS) (key : String) : (Int × Bool) × FS :=
  let r := cacheGet t now fs key
  if r.1.2 then
    match atoi r.1.1 with
    | none => ((0, false), r.2)
    | some v => ((v, true), r.2)
  else ((0, false), r.2)

/-- Source `GetHeaders`: raw read, then line parsing; any failure —
a separator-less line or the scanner's `ErrTooLong` on an over-long line —
is `(none, false)`. -/
def cacheGetHeaders (t now : Int) (fs : FS) (key : String) : (Option Headers × Bool) × FS :=
  let r := cacheGet t now fs key
  if r.1.2 then
    match parseHeaders r.1.1 with
    | none => ((none, false), r.2)
    | some h => ((some h, true), r.2)
  else ((none, false), r.2)

/-- Source `Set`: create/truncate the file with the given bytes. -/
def cacheSet (now : Int) (fs : FS) (key value : String) : FS := fsWrite fs key value now

/-- Source `SetInt`: `Set` of the decimal representation. -/
def cacheSetInt (now : Int) (fs : FS) (key : String) (v : Int) : FS :=
  cacheSet now fs key (itoa v)

/-- Source `SetHeaders`: `Set` of the serialized header lines. -/
def cacheSetHeaders (now : Int) (fs : FS) (key : String) (h : Headers) : FS :=
  cacheSet now fs key (serializeHeaders h)

/-- Source `ClearAll`: `os.ReadDir` enumerates the directory (`none` models
the enumeration failure on which `log.Fatalf` terminates the process), then
every listed entry is removed. -/
def cacheClearAll : Option FS → Option FS
  | none => none
  | some fs => some ((fs.map Prod.fst).foldl fsRemove fs)

/-! ## The request dispatcher (proxy.go)

Requests carry the fields the dispatcher reads: `r.URL.String()`, the
method, and the `User-Agent` and `Cookie` header values ("" when absent,
as `Header.Get` returns).  The origin (`client.Do`) is a parameter mapping
a request to `none` (fetch failed) or the buffered response.  The response
writer accumulates headers, the written status (`none` until `WriteHeader`;
a first `Write` sets 200), and the body.  Every store call is recorded in a
trace. -/

structure Request where
  url : String
  method : String
  userAgent : String
  cookie : String
deriving DecidableEq, Repr

structure OriginResp where
  status : Int
  headers : Headers
  body : String
deriving DecidableEq, Repr

abbrev Origin := Request → Option OriginResp

structure ResponseW where
  headers : Headers
  status : Option Int
  body : String
deriving DecidableEq, Repr

def ResponseW.empty : ResponseW := ⟨[], none, ""⟩

def respSetHeader (w : ResponseW) (n v : String) : ResponseW :=
  { w with headers := headersSet w.headers n v }

/-- `w.WriteHeader`: only the first written status takes effect. -/
def respWriteHeader (w : ResponseW) (st : Int) : ResponseW :=
  if w.status.isSome then w else { w with status := some st }

/-- `w.Write`: an implicit `WriteHeader(200)` on first use, then append. -/
def respWrite (w : ResponseW) (d : String) : ResponseW :=
  let w1 := if w.status.isSome then w else { w with status := some 200 }
  { w1 with body := w1.body ++ d }

/-- `http.Error`: plain-text content type, nosniff, status, message line. -/
def httpError (w : ResponseW) (msg : String) (code : Int) : ResponseW :=
  let w1 := respSetHeader w "Content-Type" "text/plain; charset=utf-8"
  let w2 := respSetHeader w1 "X-Content-Type-Options" "nosniff"
  respWrite (respWriteHeader w2 code) (msg ++ "\n")

/-- ASCII model of `strings.ToUpper` (HTTP method names are ASCII). -/
def toUpperStr (s : String) : String := String.mk (s.data.map toUpperA)

/-- Source `isNotSafeMethod`: uppercase, then membership in GET/HEAD/OPTIONS. -/
def isNotSafeMethod (method : String) : Bool :=
  let m := toUpperStr method
  !(m = "GET" || m = "HEAD" || m = "OPTIONS")

/-- `strings.Join(parts, "|")`. -/
def joinBar : List String → String
  | [] => ""
  | [s] => s
  | s :: rest => s ++ "|" ++ joinBar rest

/-- The raw key of `getRequestCacheKey` before hashing: the URL, then, when
per-user uniqueness is on, the nonempty User-Agent and Cookie values, joined
with `|`. -/
def rawCacheKey (uniqueByUser : Bool) (r : Request) : String :=
  joinBar ([r.url] ++
    (if uniqueByUser then
      (if r.userAgent ≠ "" then [r.userAgent] else []) ++
        (if r.cookie ≠ "" then [r.cookie] else [])
    else []))

/-- Source `getRequestCacheKey`: MD5-hex of the joined raw key. -/
def getRequestCacheKey (uniqueByUser : Bool) (r : Request) : String :=
  getMD5Hash (rawCacheKey uniqueByUser r)

/-- Proxy configuration: the store timeout (TTL) and the per-user
uniqueness flag (`SetUniqueByUser`). -/
structure Cfg where
  timeout : Int
  uniqueByUser : Bool
deriving DecidableEq, Repr

/-- One recorded store operation. -/
inductive CacheOp where
  | hasOp (k : String)
  | getOp (k : String)
  | getIntOp (k : String)
  | getHeadersOp (k : String)
  | setOp (k : String)
  | setIntOp (k : String)
  | setHeadersOp (k : String)
deriving DecidableEq, Repr

def CacheOp.isWrite : CacheOp → Bool
  | setOp _ => true
  | setIntOp _ => true
  | setHeadersOp _ => true
  | _ => false

def CacheOp.isGetRead : CacheOp → Bool
  | getOp _ => true
  | getIntOp _ => true
  | getHeadersOp _ => true
  | _ => false

/-- Store state as the dispatcher sees it: the directory plus the trace of
operations performed so far. -/
abbrev St := FS × List CacheOp

def stHas (t now : Int) (st : St) (k : String) : Bool × St :=
  let r := cacheHas t now st.1 k
  (r.1, (r.2, st.2 ++ [CacheOp.hasOp k]))

def stGet (t now : Int) (st : St) (k : String) : (String × Bool) × St :=
  let r := cacheGet t now st.1 k
  (r.1, (r.2, st.2 ++ [CacheOp.getOp k]))

def stGetInt (t now : Int) (st : St) (k : String) : (Int × Bool) × St :=
  let r := cacheGetInt t now st.1 k
  (r.1, (r.2, st.2 ++ [CacheOp.getIntOp k]))

def stGetHeaders (t now : Int) (st : St) (k : String) : (Option Headers × Bool) × St :=
  let r := cacheGetHeaders t now st.1 k
  (r.1, (r.2, st.2 ++ [CacheOp.getHeadersOp k]))

def stSet (now : Int) (st : St) (k v : String) : St :=
  (cacheSet now st.1 k v, st.2 ++ [CacheOp.setOp k])

def stSetInt (now : Int) (st : St) (k : String) (v : Int) : St :=
  (cacheSetInt now st.1 k v, st.2 ++ [CacheOp.setIntOp k])

def stSetHeaders (now : Int) (st : St) (k : String) (h : Headers) : St :=
  (cacheSetHeaders now st.1 k h, st.2 ++ [CacheOp.setHeadersOp k])

/-- Source `hasRequestInCache`: short-circuit conjunction of `Has` on the
key and its two sibling sub-keys. -/
def hasRequestInCache (t now : Int) (st : St) (key : String) : Bool × St :=
  let r1 := stHas t now st key
  if r1.1 then
    let r2 := stHas t now r1.2 (key ++ "-status")
    if r2.1 then stHas t now r2.2 (key ++ "-headers")
    else (false, r2.2)
  else (false, r1.2)

/-- Source `responseFromCache`: read body, headers and status from the
store; copy each cached header name with `w.Header().Set(name,
headers.Get(name))` (only the first value per name), write the cached
status, write the body (`Get` returns a non-nil slice even on failure, so
the final write always runs). -/
def responseFromCache (t now : Int) (w : ResponseW) (cacheKey : String) (st : St) :
    ResponseW × St :=
  let rData := stGet t now st cacheKey
  let rHdr := stGetHeaders t now rData.2 (cacheKey ++ "-headers")
  let w1 :=
    if rHdr.1.2 then
      match rHdr.1.1 with
      | some hm => (hm.map Prod.fst).foldl (fun w n => respSetHeader w n (headersGet hm n)) w
      | none => w
    else w
  let rSt := stGetInt t now rHdr.2 (cacheKey ++ "-status")
  let w2 := if rSt.1.2 then respWriteHeader w1 rSt.1.1 else w1
  (respWrite w2 rData.1.1, rSt.2)

/-- Source `proxyRequest`: fetch from the origin (failure: `http.Error` 500
and no store activity); on success, when caching, persist the three
sub-values (fired with `go` in the source; applied here in program order),
then copy each origin header name's first value, the status and the body to
the client. -/
def proxyRequest (origin : Origin) (now : Int) (r : Request) (w : ResponseW)
    (caching : Bool) (cacheKey : String) (st : St) : ResponseW × St :=
  match origin r with
  | none => (httpError w "Failed to fetch data from origin" 500, st)
  | some resp =>
    let st1 :=
      if caching then
        stSetHeaders now
          (stSetInt now (stSet now st cacheKey resp.body) (cacheKey ++ "-status") resp.status)
          (cacheKey ++ "-headers") resp.headers
      else st
    let w1 := (resp.headers.map Prod.fst).foldl
      (fun w n => respSetHeader w n (headersGet resp.headers n)) w
    (respWrite (respWriteHeader w1 resp.status) resp.body, st1)

/-- Source `handleRequest`: non-safe methods bypass the cache with
`X-Cache: MISS`; safe methods derive the key, check the cache, and either
serve from the store (`X-Cache: HIT`) or forward and populate. -/
def handleRequest (cfg : Cfg) (origin : Origin) (now : Int) (r : Request) (fs : FS) :
    ResponseW × St :=
  if isNotSafeMethod r.method then
    proxyRequest origin now r (respSetHeader ResponseW.empty "X-Cache" "MISS") false "" (fs, [])
  else
    let cacheKey := getRequestCacheKey cfg.uniqueByUser r
    let rHas := hasRequestInCache cfg.timeout now (fs, []) cacheKey
    if !rHas.1 then
      proxyRequest origin now r (respSetHeader ResponseW.empty "X-Cache" "MISS") true cacheKey rHas.2
    else
      responseFromCache cfg.timeout now (respSetHeader ResponseW.empty "X-Cache" "HIT") cacheKey rHas.2

/-! ## Auxiliary predicates and example inputs used by the theorems -/

/-- Whether the character list contains the separator `": "`. -/
def hasColonSpace : List Char → Bool
  | [] => false
  | c :: rest => (c = ':' && startsWithSpace rest) || hasColonSpace rest

/-- A header name that survives the store round trip: canonical (a fixed
point of `canonicalKey`), without the `": "` separator and without
newlines. -/
def goodName (n : String) : Prop :=
  canonicalKey n = n ∧ hasColonSpace n.data = false ∧ ∀ c ∈ n.data, c ≠ '\n'

/-- A header value that survives the store round trip: no newline and no
trailing carriage return. -/
def goodValue (v : String) : Prop :=
  v.data.getLast? ≠ some '\r' ∧ ∀ c ∈ v.data, c ≠ '\n'

/-- Well-formed header map: distinct good names, each with a nonempty list
of good values.  Headers of a response parsed by Go's HTTP client have this
shape. -/
def wfHeaders (h : Headers) : Prop :=
  (h.map Prod.fst).Nodup ∧ ∀ p ∈ h, goodName p.1 ∧ p.2 ≠ [] ∧ ∀ v ∈ p.2, goodValue v

instance (n : String) : Decidable (goodName n) := by unfold goodName; infer_instance

instance (v : String) : Decidable (goodValue v) := by unfold goodValue; infer_instance

instance (h : Headers) : Decidable (wfHeaders h) := by unfold wfHeaders goodName goodValue; infer_instance

/-- Every serialized `Name: Value` line of the header map stays under the
scanner's token-size limit (name bytes + 2 separator bytes + value bytes). -/
def linesFit (h : Headers) : Prop :=
  ∀ p ∈ h, ∀ v ∈ p.2,
    charBytesLen p.1.data + 2 + charBytesLen v.data < maxScanTokenSize

instance (h : Headers) : Decidable (linesFit h) := by unfold linesFit; infer_instance

/-- Value of a little-endian digit list. -/
def valLE : List Nat → Nat
  | [] => 0
  | d :: ds => d + 10 * valLE ds

/-- The suffix the User-Agent and Cookie contribute to the raw cache key. -/
def uaCkSfx (ua ck : String) : String :=
  (if ua ≠ "" then "|" ++ ua else "") ++ (if ck ≠ "" then "|" ++ ck else "")

/-- First message of a published single-block MD5 collision (M. Stevens,
2012); 72 printable ASCII bytes. -/
def msgA : String := "TEXTCOLLBYfGiJUETHQ4hAcKSMd5zYpgqf1YRDhkmxHkhPWptrkoyz28wnI9V0aHeAuaKnak"

/-- Second message of the collision: identical to `msgA` except one
character (`A` vs `E` at offset 21). -/
def msgB : String := "TEXTCOLLBYfGiJUETHQ4hEcKSMd5zYpgqf1YRDhkmxHkhPWptrkoyz28wnI9V0aHeAuaKnak"

/-- A concrete safe request used in concrete evaluations. -/
def exReq : Request := ⟨"u", "GET", "", ""⟩

/-- Its derived cache key (uniqueness disabled). -/
def exKey : String := getRequestCacheKey false exReq

/-- A store holding a complete cached response for `exReq`, whose headers
file carries a two-valued `Set-Cookie` header. -/
def exFS : FS :=
  [(exKey, ⟨"hello", 0⟩), (exKey ++ "-status", ⟨"200", 0⟩),
   (exKey ++ "-headers", ⟨"Set-Cookie: a\nSet-Cookie: b\n", 0⟩)]

/-! ## String lemmas -/

theorem strMk_inj {a b : List Char} (h : String.mk a = String.mk b) : a = b := by
  injection h

theorem strData_inj {a b : String} (h : a.data = b.data) : a = b := by
  cases a; cases b; exact congrArg String.mk h

theorem strData_app (a b : String) : (a ++ b).data = a.data ++ b.data := by
  cases a; cases b; rfl

theorem strApp_left_cancel {k a b : String} (h : k ++ a = k ++ b) : a = b := by
  have := congrArg String.data h
  simp only [strData_app] at this
  exact strData_inj (List.append_cancel_left this)

theorem strApp_right_cancel {a b s : String} (h : a ++ s = b ++ s) : a = b := by
  have := congrArg String.data h
  simp only [strData_app] at this
  exact strData_inj (List.append_cancel_right this)

theorem strNe_append_right {k s : String} (h : s ≠ "") : k ≠ k ++ s := by
  intro he
  have := congrArg (fun x => x.data.length) he
  simp only [strData_app, List.length_append] at this
  have hs : s.data ≠ [] := fun hn => h (strData_inj (by simpa using hn))
  have := List.length_pos.mpr hs
  omega

theorem strApp_ne_of_ne (k : String) {a b : String} (h : a ≠ b) : k ++ a ≠ k ++ b :=
  fun he => h (strApp_left_cancel he)

/-! ## File-store lemmas -/

theorem fsLookup_fsRemove (fs : FS) (k k2 : String) :
    fsLookup (fsRemove fs k) k2 = if k2 = k then none else fsLookup fs k2 := by
  induction fs with
  | nil => simp [fsRemove, fsLookup]
  | cons p rest ih =>
    simp only [fsRemove, fsLookup]
    by_cases h : p.1 = k
    · rw [if_pos h, ih]
      by_cases hk : k2 = k
      · simp [hk]
      · rw [if_neg hk, if_neg hk, if_neg (fun he : p.1 = k2 => hk (he.symm.trans h))]
    · rw [if_neg h]
      by_cases h2 : p.1 = k2
      · simp only [fsLookup, if_pos h2]
        rw [if_neg (fun hk : k2 = k => h (h2.trans hk))]
      · simp only [fsLookup, if_neg h2, ih]

theorem expireStep_eq_none {t now : Int} {fs : FS} {k : String}
    (h : fsLookup fs k = none) : expireStep t now fs k = none := by
  simp [expireStep, h]

theorem expireStep_some {t now : Int} {fs fs' : FS} {k : String}
    (h : expireStep t now fs k = some fs') : fs' = fs ∨ fs' = fsRemove fs k := by
  unfold expireStep at h
  cases hl : fsLookup fs k with
  | none => simp [hl] at h
  | some e =>
    simp only [hl] at h
    injection h with h
    by_cases he : now - e.modTime > t
    · right; rw [if_pos he] at h; exact h.symm
    · left; rw [if_neg he] at h; exact h.symm

theorem expireStep_keeps {t now : Int} {fs : FS} {k : String} {e : FileEntry}
    (h : fsLookup fs k = some e) (hne : ¬now - e.modTime > t) :
    expireStep t now fs k = some fs := by
  simp [expireStep, h, hne]

theorem expireStep_lookup_none {t now : Int} {fs fs' : FS} {k k2 : String}
    (h : expireStep t now fs k = some fs') (h2 : fsLookup fs k2 = none) :
    fsLookup fs' k2 = none := by
  rcases expireStep_some h with rfl | rfl
  · exact h2
  · rw [fsLookup_fsRemove]; split <;> simp [h2]

theorem expireStep_lookup_other {t now : Int} {fs fs' : FS} {k k2 : String}
    (h : expireStep t now fs k = some fs') (hne : k2 ≠ k) :
    fsLookup fs' k2 = fsLookup fs k2 := by
  rcases expireStep_some h with rfl | rfl
  · rfl
  · rw [fsLookup_fsRemove, if_neg hne]

theorem expireLoop_nil (t now : Int) (fs : FS) : expireLoop t now fs [] = fs := rfl

theorem expireLoop_cons_none {t now : Int} {fs : FS} {k : String} (ks : List String)
    (h : expireStep t now fs k = none) : expireLoop t now fs (k :: ks) = fs := by
  simp [expireLoop, h]

theorem expireLoop_cons_some {t now : Int} {fs fs1 : FS} {k : String} (ks : List String)
    (h : expireStep t now fs k = some fs1) :
    expireLoop t now fs (k :: ks) = expireLoop t now fs1 ks := by
  simp [expireLoop, h]

theorem expireLoop_lookup_none {t now : Int} :
    ∀ (ks : List String) {fs : FS} {k : String}, fsLookup fs k = none →
      fsLookup (expireLoop t now fs ks) k = none
  | [], _, _, h => h
  | k1 :: ks, fs, k, h => by
    cases e : expireStep t now fs k1 with
    | none => rw [expireLoop_cons_none ks e]; exact h
    | some fs1 =>
      rw [expireLoop_cons_some ks e]
      exact expireLoop_lookup_none ks (expireStep_lookup_none e h)

theorem expireLoop_lookup_notMem {t now : Int} :
    ∀ (ks : List String) {fs : FS} {k : String}, k ∉ ks →
      fsLookup (expireLoop t now fs ks) k = fsLookup fs k
  | [], _, _, _ => rfl
  | k1 :: ks, fs, k, h => by
    cases e : expireStep t now fs k1 with
    | none => rw [expireLoop_cons_none ks e]
    | some fs1 =>
      rw [expireLoop_cons_some ks e]
      have hne : k ≠ k1 := fun he => h (he ▸ List.mem_cons_self k1 ks)
      rw [expireLoop_lookup_notMem ks (fun hm => h (List.mem_cons_of_mem k1 hm)),
        expireStep_lookup_other e hne]

theorem dCBE_lookup_none {t now : Int} {fs : FS} {key k : String}
    (h : fsLookup fs k = none) :
    fsLookup (deleteCacheByExpiration t now fs key) k = none := by
  unfold deleteCacheByExpiration
  split
  · exact h
  · exact expireLoop_lookup_none _ h

theorem dCBE_preserve {t now : Int} {fs : FS} {q : String} {e : FileEntry}
    (hq : fsLookup fs q = some e) (hne : 0 < t → now - e.modTime ≤ t)
    {k : String} (h1 : k ≠ q ++ "-status") (h2 : k ≠ q ++ "-headers") :
    fsLookup (deleteCacheByExpiration t now fs q) k = fsLookup fs k := by
  unfold deleteCacheByExpiration
  split
  · rfl
  · rename_i ht
    have hstep : expireStep t now fs q = some fs :=
      expireStep_keeps hq (by have := hne (by omega); omega)
    rw [expireLoop_cons_some _ hstep]
    exact expireLoop_lookup_notMem _ (by
      intro hm
      rcases List.mem_cons.mp hm with hc | hm2
      · exact h1 hc
      · exact h2 (by simpa using hm2))

theorem strApp_ne_empty {a : String} (b : String) (h : a ≠ "") : a ++ b ≠ "" := by
  intro he
  have hlen := congrArg (fun x => x.data.length) he
  simp only [strData_app, List.length_append] at hlen
  have ha : a.data ≠ [] := fun hn => h (strData_inj (by simpa using hn))
  have hpos := List.length_pos.mpr ha
  have h0 : (([] : List Char)).length = 0 := rfl
  omega

theorem ne_k_app_app (k : String) {b c : String} (hbc : b ++ c ≠ "") :
    k ≠ (k ++ b) ++ c := by
  rw [String.append_assoc]; exact strNe_append_right hbc

theorem ne_app_app (k : String) {a b c : String} (h : a ≠ b ++ c) :
    k ++ a ≠ (k ++ b) ++ c := by
  rw [String.append_assoc]; exact strApp_ne_of_ne k h

theorem key_ne_status (k : String) : k ≠ k ++ "-status" :=
  strNe_append_right (by decide)

theorem key_ne_headers (k : String) : k ≠ k ++ "-headers" :=
  strNe_append_right (by decide)

theorem status_ne_headers (k : String) : k ++ "-status" ≠ k ++ "-headers" :=
  strApp_ne_of_ne k (by decide)

/-- With all three sub-files present and unexpired, lazy expiration is a
no-op. -/
theorem dCBE_noop {t now : Int} {fs : FS} {key : String} {e1 e2 e3 : FileEntry}
    (h1 : fsLookup fs key = some e1) (u1 : 0 < t → now - e1.modTime ≤ t)
    (h2 : fsLookup fs (key ++ "-status") = some e2) (u2 : 0 < t → now - e2.modTime ≤ t)
    (h3 : fsLookup fs (key ++ "-headers") = some e3) (u3 : 0 < t → now - e3.modTime ≤ t) :
    deleteCacheByExpiration t now fs key = fs := by
  unfold deleteCacheByExpiration
  split
  · rfl
  · rename_i ht
    have hp : 0 < t := by omega
    rw [expireLoop_cons_some _ (expireStep_keeps h1 (by have := u1 hp; omega)),
      expireLoop_cons_some _ (expireStep_keeps h2 (by have := u2 hp; omega)),
      expireLoop_cons_some _ (expireStep_keeps h3 (by have := u3 hp; omega)),
      expireLoop_nil]

/-- With all three sub-files present and expired, lazy expiration removes
all three. -/
theorem dCBE_expired_all {t now : Int} {fs : FS} {key : String} {e1 e2 e3 : FileEntry}
    (ht : 0 < t)
    (h1 : fsLookup fs key = some e1) (x1 : now - e1.modTime > t)
    (h2 : fsLookup fs (key ++ "-status") = some e2) (x2 : now - e2.modTime > t)
    (h3 : fsLookup fs (key ++ "-headers") = some e3) (x3 : now - e3.modTime > t) :
    fsLookup (deleteCacheByExpiration t now fs key) key = none ∧
    fsLookup (deleteCacheByExpiration t now fs key) (key ++ "-status") = none ∧
    fsLookup (deleteCacheByExpiration t now fs key) (key ++ "-headers") = none := by
  unfold deleteCacheByExpiration
  rw [if_neg (by omega)]
  have s1 : expireStep t now fs key = some (fsRemove fs key) := by
    simp [expireStep, h1, x1]
  set fs1 := fsRemove fs key with hfs1
  have l1k : fsLookup fs1 key = none := by rw [hfs1, fsLookup_fsRemove, if_pos rfl]
  have l1s : fsLookup fs1 (key ++ "-status") = some e2 := by
    rw [hfs1, fsLookup_fsRemove, if_neg (Ne.symm (key_ne_status key))]; exact h2
  have l1h : fsLookup fs1 (key ++ "-headers") = some e3 := by
    rw [hfs1, fsLookup_fsRemove, if_neg (Ne.symm (key_ne_headers key))]; exact h3
  have s2 : expireStep t now fs1 (key ++ "-status") = some (fsRemove fs1 (key ++ "-status")) := by
    simp [expireStep, l1s, x2]
  set fs2 := fsRemove fs1 (key ++ "-status") with hfs2
  have l2k : fsLookup fs2 key = none := by
    rw [hfs2, fsLookup_fsRemove]; split <;> simp [l1k]
  have l2s : fsLookup fs2 (key ++ "-status") = none := by
    rw [hfs2, fsLookup_fsRemove, if_pos rfl]
  have l2h : fsLookup fs2 (key ++ "-headers") = some e3 := by
    rw [hfs2, fsLookup_fsRemove, if_neg (Ne.symm (status_ne_headers key))]; exact l1h
  have s3 : expireStep t now fs2 (key ++ "-headers") = some (fsRemove fs2 (key ++ "-headers")) := by
    simp [expireStep, l2h, x3]
  rw [expireLoop_cons_some _ s1, expireLoop_cons_some _ s2, expireLoop_cons_some _ s3,
    expireLoop_nil]
  refine ⟨?_, ?_, ?_⟩ <;> rw [fsLookup_fsRemove]
  · rw [if_neg (key_ne_headers key)]; exact l2k
  · rw [if_neg (status_ne_headers key)]; exact l2s
  · rw [if_pos rfl]

/-- With timeout zero, lazy expiration is skipped entirely. -/
theorem dCBE_zero (now : Int) (fs : FS) (key : String) :
    deleteCacheByExpiration 0 now fs key = fs := by
  unfold deleteCacheByExpiration
  rw [if_pos (by omega)]

/-! ## Header-map and response-writer lemmas -/

theorem lookupVals_setVal (h : Headers) (k k2 v : String) :
    lookupVals (setVal h k v) k2 = if k = k2 then some [v] else lookupVals h k2 := by
  induction h with
  | nil => simp [setVal, lookupVals]
  | cons p rest ih =>
    obtain ⟨n, vs⟩ := p
    by_cases hn : n = k
    · simp only [setVal, if_pos hn, lookupVals]
      by_cases hk : k = k2
      · rw [if_pos hk, if_pos hk]
      · rw [if_neg hk, if_neg hk, if_neg (fun he : n = k2 => hk (hn ▸ he))]
    · simp only [setVal, if_neg hn, lookupVals]
      by_cases h2 : n = k2
      · rw [if_pos h2, if_pos h2, if_neg (fun he : k = k2 => hn (h2 ▸ he ▸ rfl))]
      · rw [if_neg h2, if_neg h2, ih]

theorem setVal_notMem (h : Headers) (k v : String) (hk : k ∉ h.map Prod.fst) :
    setVal h k v = h ++ [(k, [v])] := by
  induction h with
  | nil => rfl
  | cons p rest ih =>
    have hne : p.1 ≠ k := fun he => hk (by simp [he.symm])
    obtain ⟨n, vs⟩ := p
    simp only [setVal, if_neg hne]
    rw [ih (fun hm => hk (by simp at hm ⊢; right; exact hm))]
    rfl

theorem lookupVals_of_mem {h : Headers} (hnd : (h.map Prod.fst).Nodup)
    {p : String × List String} (hp : p ∈ h) : lookupVals h p.1 = some p.2 := by
  induction h with
  | nil => cases hp
  | cons q rest ih =>
    rcases List.mem_cons.mp hp with rfl | hm
    · simp [lookupVals]
    · have hne : q.1 ≠ p.1 := by
        intro he
        have : p.1 ∈ rest.map Prod.fst := List.mem_map_of_mem Prod.fst hm
        rw [← he] at this
        exact (List.nodup_cons.mp (by simpa using hnd)).1 this
      obtain ⟨n, vs⟩ := q
      simp only [lookupVals, if_neg hne]
      exact ih (List.nodup_cons.mp (by simpa using hnd)).2 hm

theorem foldl_respSet_status (l : List String) (f : String → String) (w : ResponseW) :
    (l.foldl (fun w n => respSetHeader w n (f n)) w).status = w.status ∧
    (l.foldl (fun w n => respSetHeader w n (f n)) w).body = w.body := by
  induction l generalizing w with
  | nil => exact ⟨rfl, rfl⟩
  | cons n rest ih => exact ih (respSetHeader w n (f n))

theorem foldl_respSet_other (l : List String) (f : String → String) (w : ResponseW)
    (ck : String) (hck : ∀ n ∈ l, canonicalKey n ≠ ck) :
    lookupVals (l.foldl (fun w n => respSetHeader w n (f n)) w).headers ck
      = lookupVals w.headers ck := by
  induction l generalizing w with
  | nil => rfl
  | cons n rest ih =>
    rw [List.foldl_cons, ih _ (fun m hm => hck m (List.mem_cons_of_mem n hm))]
    show lookupVals (setVal w.headers (canonicalKey n) (f n)) ck = _
    rw [lookupVals_setVal, if_neg (hck n (List.mem_cons_self n rest))]

theorem foldl_respSet_append (ns : List String) (f : String → String) (w : ResponseW)
    (hnd : ns.Nodup) (hcanon : ∀ n ∈ ns, canonicalKey n = n)
    (hfresh : ∀ n ∈ ns, n ∉ w.headers.map Prod.fst) :
    (ns.foldl (fun w n => respSetHeader w n (f n)) w).headers
      = w.headers ++ ns.map (fun n => (n, [f n])) := by
  induction ns generalizing w with
  | nil => simp
  | cons n rest ih =>
    rw [List.foldl_cons]
    have hw : (respSetHeader w n (f n)).headers = w.headers ++ [(n, [f n])] := by
      show setVal w.headers (canonicalKey n) (f n) = _
      rw [hcanon n (List.mem_cons_self n rest),
        setVal_notMem _ _ _ (hfresh n (List.mem_cons_self n rest))]
    rw [ih (respSetHeader w n (f n)) (List.nodup_cons.mp hnd).2
      (fun m hm => hcanon m (List.mem_cons_of_mem n hm))
      (fun m hm => by
        rw [hw]
        simp only [List.map_append, List.mem_append, List.map_cons, List.map_nil]
        rintro (hmem | hmem)
        · exact hfresh m (List.mem_cons_of_mem n hm) hmem
        · simp at hmem
          exact (List.nodup_cons.mp hnd).1 (hmem ▸ hm)), hw]
    simp

/-! ## Dispatcher unfolding and trace lemmas -/

theorem proxyRequest_fail {origin : Origin} {r : Request} (now : Int) (w : ResponseW)
    (caching : Bool) (key : String) (st : St) (h : origin r = none) :
    proxyRequest origin now r w caching key st
      = (httpError w "Failed to fetch data from origin" 500, st) := by
  simp [proxyRequest, h]

theorem proxyRequest_nocache (origin : Origin) (now : Int) (r : Request) (w : ResponseW)
    (key : String) (st : St) :
    (proxyRequest origin now r w false key st).2 = st := by
  unfold proxyRequest
  cases origin r <;> simp

theorem hasRequestInCache_trace (t now : Int) (st : St) (key : String) :
    ∀ op ∈ (hasRequestInCache t now st key).2.2, op ∈ st.2 ∨ ∃ k, op = CacheOp.hasOp k := by
  intro op
  simp only [hasRequestInCache, stHas]
  split
  · split
    · simp only [cacheHas]
      intro hm
      rcases List.mem_append.mp hm with hm | hm
      · rcases List.mem_append.mp hm with hm | hm
        · rcases List.mem_append.mp hm with hm | hm
          · exact Or.inl hm
          · exact Or.inr ⟨key, by simpa using hm⟩
        · exact Or.inr ⟨key ++ "-status", by simpa using hm⟩
      · exact Or.inr ⟨key ++ "-headers", by simpa using hm⟩
    · simp only [cacheHas]
      intro hm
      rcases List.mem_append.mp hm with hm | hm
      · rcases List.mem_append.mp hm with hm | hm
        · exact Or.inl hm
        · exact Or.inr ⟨key, by simpa using hm⟩
      · exact Or.inr ⟨key ++ "-status", by simpa using hm⟩
  · simp only [cacheHas]
    intro hm
    rcases List.mem_append.mp hm with hm | hm
    · exact Or.inl hm
    · exact Or.inr ⟨key, by simpa using hm⟩

theorem proxyRequest_trace (origin : Origin) (now : Int) (r : Request) (w : ResponseW)
    (caching : Bool) (key : String) (st : St) :
    ∀ op ∈ (proxyRequest origin now r w caching key st).2.2,
      op ∈ st.2 ∨ op.isWrite = true := by
  unfold proxyRequest
  intro op
  cases origin r with
  | none => exact fun hm => Or.inl hm
  | some resp =>
    cases caching with
    | false => exact fun hm => Or.inl hm
    | true =>
      simp only [stSetHeaders, stSetInt, stSet, cacheSetHeaders, cacheSetInt, cacheSet]
      intro hm
      rcases List.mem_append.mp hm with hm | hm
      · rcases List.mem_append.mp hm with hm | hm
        · rcases List.mem_append.mp hm with hm | hm
          · exact Or.inl hm
          · right; simp at hm; rw [hm]; rfl
        · right; simp at hm; rw [hm]; rfl
      · right; simp at hm; rw [hm]; rfl

theorem handleRequest_bypass {cfg : Cfg} {origin : Origin} {now : Int} {r : Request}
    {fs : FS} (h : isNotSafeMethod r.method = true) :
    handleRequest cfg origin now r fs
      = proxyRequest origin now r (respSetHeader ResponseW.empty "X-Cache" "MISS")
          false "" (fs, []) := by
  simp [handleRequest, h]

theorem handleRequest_miss {cfg : Cfg} {origin : Origin} {now : Int} {r : Request}
    {fs : FS} (hm : isNotSafeMethod r.method = false)
    (hc : (hasRequestInCache cfg.timeout now (fs, [])
      (getRequestCacheKey cfg.uniqueByUser r)).1 = false) :
    handleRequest cfg origin now r fs
      = proxyRequest origin now r (respSetHeader ResponseW.empty "X-Cache" "MISS")
          true (getRequestCacheKey cfg.uniqueByUser r)
          (hasRequestInCache cfg.timeout now (fs, [])
            (getRequestCacheKey cfg.uniqueByUser r)).2 := by
  simp [handleRequest, hm, hc]

theorem handleRequest_hit {cfg : Cfg} {origin : Origin} {now : Int} {r : Request}
    {fs : FS} (hm : isNotSafeMethod r.method = false)
    (hc : (hasRequestInCache cfg.timeout now (fs, [])
      (getRequestCacheKey cfg.uniqueByUser r)).1 = true) :
    handleRequest cfg origin now r fs
      = responseFromCache cfg.timeout now (respSetHeader ResponseW.empty "X-Cache" "HIT")
          (getRequestCacheKey cfg.uniqueByUser r)
          (hasRequestInCache cfg.timeout now (fs, [])
            (getRequestCacheKey cfg.uniqueByUser r)).2 := by
  simp [handleRequest, hm, hc]

/-! ## Claim C1: partial-entry masking -/

/-- C1: for every key, if only the body sub-value exists in the store (the
status and headers sub-values are missing), the dispatcher's
`hasRequestInCache` check returns false, and a safe-method request whose
derived key is in that state performs no `Get`-type store read — it is
treated as a miss and never served from the cache. -/
theorem c1_partial_entry_masking :
    (∀ (t now : Int) (fs : FS) (tr : List CacheOp) (key : String) (e : FileEntry),
      fsLookup fs key = some e →
      fsLookup fs (key ++ "-status") = none →
      fsLookup fs (key ++ "-headers") = none →
      (hasRequestInCache t now (fs, tr) key).1 = false) ∧
    (∀ (cfg : Cfg) (origin : Origin) (now : Int) (r : Request) (fs : FS) (e : FileEntry),
      isNotSafeMethod r.method = false →
      fsLookup fs (getRequestCacheKey cfg.uniqueByUser r) = some e →
      fsLookup fs (getRequestCacheKey cfg.uniqueByUser r ++ "-status") = none →
      fsLookup fs (getRequestCacheKey cfg.uniqueByUser r ++ "-headers") = none →
      ∀ op ∈ (handleRequest cfg origin now r fs).2.2, op.isGetRead = false) := by
  have main : ∀ (t now : Int) (fs : FS) (tr : List CacheOp) (key : String) (e : FileEntry),
      fsLookup fs key = some e →
      fsLookup fs (key ++ "-status") = none →
      fsLookup fs (key ++ "-headers") = none →
      (hasRequestInCache t now (fs, tr) key).1 = false := by
    intro t now fs tr key e hbody hst hhd
    have h2 : fsLookup (deleteCacheByExpiration t now (deleteCacheByExpiration t now fs key)
        (key ++ "-status")) (key ++ "-status") = none :=
      dCBE_lookup_none (dCBE_lookup_none hst)
    simp only [hasRequestInCache, stHas, cacheHas]
    split
    · simp [h2]
    · rfl
  refine ⟨main, ?_⟩
  intro cfg origin now r fs e hm hbody hst hhd op hop
  have hc := main cfg.timeout now fs [] (getRequestCacheKey cfg.uniqueByUser r) e hbody hst hhd
  rw [handleRequest_miss hm hc] at hop
  rcases proxyRequest_trace _ _ _ _ _ _ _ op hop with hmem | hw
  · rcases hasRequestInCache_trace _ _ _ _ op hmem with hmem2 | ⟨k, rfl⟩
    · cases hmem2
    · rfl
  · cases op <;> first | rfl | exact absurd hw (by simp [CacheOp.isWrite])

/-- C1 witness: a store holding only the body file for key `k`. -/
theorem c1_witness :
    fsLookup [("k", ⟨"b", 0⟩)] "k" = some ⟨"b", 0⟩ ∧
    fsLookup [("k", ⟨"b", 0⟩)] ("k" ++ "-status") = none ∧
    fsLookup [("k", ⟨"b", 0⟩)] ("k" ++ "-headers") = none ∧
    (hasRequestInCache 0 0 ([("k", ⟨"b", 0⟩)], []) "k").1 = false :=
  ⟨by decide, by decide, by decide,
   c1_partial_entry_masking.1 0 0 _ [] "k" ⟨"b", 0⟩ (by decide) (by decide) (by decide)⟩

/-! ## Claim C5: lazy expiration -/

/-- C5 (amended): with a positive TTL, when all three sub-files of a key
exist and each is expired at read time, `Has`/`Get` delete all three before
reading and report a miss; the deletion loop stops at the first missing
sub-file, so a sibling after a missing file can survive (see the
counterexample); with TTL = 0 no read-path operation modifies the store. -/
theorem c5_lazy_expiration :
    (∀ (t now : Int) (fs : FS) (key : String) (e1 e2 e3 : FileEntry),
      0 < t →
      fsLookup fs key = some e1 → now - e1.modTime > t →
      fsLookup fs (key ++ "-status") = some e2 → now - e2.modTime > t →
      fsLookup fs (key ++ "-headers") = some e3 → now - e3.modTime > t →
      (cacheHas t now fs key).1 = false ∧
      fsLookup (cacheHas t now fs key).2 key = none ∧
      fsLookup (cacheHas t now fs key).2 (key ++ "-status") = none ∧
      fsLookup (cacheHas t now fs key).2 (key ++ "-headers") = none ∧
      (cacheGet t now fs key).1 = ("", false)) ∧
    (∀ (now : Int) (fs : FS) (key : String),
      (cacheHas 0 now fs key).2 = fs ∧ (cacheGet 0 now fs key).2 = fs) := by
  constructor
  · intro t now fs key e1 e2 e3 ht h1 x1 h2 x2 h3 x3
    obtain ⟨n1, n2, n3⟩ := dCBE_expired_all ht h1 x1 h2 x2 h3 x3
    refine ⟨?_, n1, n2, n3, ?_⟩
    · simp [cacheHas, n1]
    · simp [cacheGet, n1]
  · intro now fs key
    constructor
    · simp [cacheHas, dCBE_zero]
    · simp only [cacheGet, dCBE_zero]
      split <;> rfl

/-- C5 counterexample: the body of `k` is expired and deleted, the check
reports a miss, but the sibling `k-headers` — itself expired — survives,
because the loop returned early at the missing `k-status`. -/
theorem c5_counterexample :
    ((0 : Int) < 1) ∧
    fsLookup [("k", ⟨"x", 0⟩), ("k" ++ "-headers", ⟨"y", 0⟩)] "k" = some ⟨"x", 0⟩ ∧
    ((10 : Int) - 0 > 1) ∧
    fsLookup [("k", ⟨"x", 0⟩), ("k" ++ "-headers", ⟨"y", 0⟩)] ("k" ++ "-headers")
      = some ⟨"y", 0⟩ ∧
    (cacheHas 1 10 [("k", ⟨"x", 0⟩), ("k" ++ "-headers", ⟨"y", 0⟩)] "k").1 = false ∧
    fsLookup (cacheHas 1 10 [("k", ⟨"x", 0⟩), ("k" ++ "-headers", ⟨"y", 0⟩)] "k").2
      ("k" ++ "-headers") = some ⟨"y", 0⟩ := by
  decide

/-- C5 witness: a fully-populated expired entry is wholly removed and
reported as a miss; with TTL 0 the store is untouched. -/
theorem c5_witness :
    (cacheHas 1 10 [("k", ⟨"x", 0⟩), ("k" ++ "-status", ⟨"200", 0⟩),
      ("k" ++ "-headers", ⟨"A: b\n", 0⟩)] "k").1 = false ∧
    (cacheHas 0 5 [("k", ⟨"x", 3⟩)] "k").2 = [("k", ⟨"x", 3⟩)] :=
  ⟨(c5_lazy_expiration.1 1 10 _ "k" ⟨"x", 0⟩ ⟨"200", 0⟩ ⟨"A: b\n", 0⟩ (by decide)
      (by decide) (by decide) (by decide) (by decide) (by decide) (by decide)).1,
   (c5_lazy_expiration.2 5 _ "k").1⟩

/-! ## Claim C9: clear-all -/

theorem mem_fsRemove {fs : FS} {k : String} {p : String × FileEntry} :
    p ∈ fsRemove fs k ↔ p ∈ fs ∧ p.1 ≠ k := by
  induction fs with
  | nil => simp [fsRemove]
  | cons q rest ih =>
    by_cases hq : q.1 = k
    · rw [fsRemove, if_pos hq, ih]
      constructor
      · rintro ⟨hm, hne⟩; exact ⟨List.mem_cons_of_mem q hm, hne⟩
      · rintro ⟨hm, hne⟩
        rcases List.mem_cons.mp hm with rfl | hm
        · exact absurd hq hne
        · exact ⟨hm, hne⟩
    · rw [fsRemove, if_neg hq]
      constructor
      · intro hm
        rcases List.mem_cons.mp hm with rfl | hm
        · exact ⟨List.mem_cons_self _ _, hq⟩
        · exact ⟨List.mem_cons_of_mem q (ih.mp hm).1, (ih.mp hm).2⟩
      · rintro ⟨hm, hne⟩
        rcases List.mem_cons.mp hm with rfl | hm
        · exact List.mem_cons_self p _
        · exact List.mem_cons_of_mem q (ih.mpr ⟨hm, hne⟩)

theorem clearLoop_empty :
    ∀ (names : List String) (fs : FS), (∀ p ∈ fs, p.1 ∈ names) →
      names.foldl fsRemove fs = []
  | [], fs, h => by
    cases fs with
    | nil => rfl
    | cons p rest => exact absurd (h p (List.mem_cons_self p rest)) (by simp)
  | n :: rest, fs, h => by
    rw [List.foldl_cons]
    exact clearLoop_empty rest (fsRemove fs n) (fun p hp => by
      rcases mem_fsRemove.mp hp with ⟨hm, hne⟩
      rcases List.mem_cons.mp (h p hm) with he | hm2
      · exact absurd he hne
      · exact hm2)

/-- C9: for every store state with at least one entry, `ClearAll` removes
every entry, leaving zero entries, and every subsequent lookup misses;
when the store root cannot be enumerated, `ClearAll` is fatal (the process
terminates, modelled by the `none` result). -/
theorem c9_clear_all :
    (∀ fs : FS, 1 ≤ fs.length →
      cacheClearAll (some fs) = some [] ∧
      (∀ (t now : Int) (key : String), (cacheHas t now [] key).1 = false ∧
        (cacheGet t now [] key).1 = ("", false))) ∧
    cacheClearAll none = none := by
  constructor
  · intro fs _
    constructor
    · show some ((fs.map Prod.fst).foldl fsRemove fs) = some []
      rw [clearLoop_empty (fs.map Prod.fst) fs
        (fun p hp => List.mem_map_of_mem Prod.fst hp)]
    · intro t now key
      have hd : deleteCacheByExpiration t now [] key = [] := by
        unfold deleteCacheByExpiration
        split
        · rfl
        · exact expireLoop_cons_none _ (expireStep_eq_none rfl)
      constructor
      · simp [cacheHas, hd, fsLookup]
      · simp [cacheGet, hd, fsLookup]
  · rfl

/-- C9 witness: one populated entry, cleared; lookups on the empty store
miss; enumeration failure is fatal. -/
theorem c9_witness :
    1 ≤ ([("a", ⟨"x", 0⟩)] : FS).length ∧
    cacheClearAll (some [("a", ⟨"x", 0⟩)]) = some [] ∧
    (cacheHas 0 0 [] "a").1 = false ∧
    cacheClearAll none = none :=
  ⟨by decide,
   (c9_clear_all.1 [("a", ⟨"x", 0⟩)] (by decide)).1,
   ((c9_clear_all.1 [("a", ⟨"x", 0⟩)] (by decide)).2 0 0 "a").1,
   c9_clear_all.2⟩

/-! ## Claim C10: key coincidence across uniqueness modes -/

/-- C10: when the User-Agent and Cookie values are both empty (absent), the
key derived with per-user uniqueness enabled equals the key derived with it
disabled, and both are the MD5 hex digest of the URL string alone. -/
theorem c10_key_coincidence (r : Request)
    (h1 : r.userAgent = "") (h2 : r.cookie = "") :
    getRequestCacheKey true r = getMD5Hash r.url ∧
    getRequestCacheKey false r = getMD5Hash r.url := by
  unfold getRequestCacheKey rawCacheKey
  simp [h1, h2, joinBar]

/-- C10 witness: a concrete request without User-Agent and Cookie. -/
theorem c10_witness :
    (exReq.userAgent = "" ∧ exReq.cookie = "") ∧
    getRequestCacheKey true exReq = getMD5Hash exReq.url ∧
    getRequestCacheKey false exReq = getMD5Hash exReq.url :=
  ⟨⟨rfl, rfl⟩, c10_key_coincidence exReq rfl rfl⟩

/-! ## Claim C8: typed readers fail as miss -/

theorem parseLines_none :
    ∀ (lines : List (List Char)) (acc : Headers),
      (∃ l ∈ lines, l ≠ [] ∧ splitColonSpace l = none) → parseLines lines acc = none
  | [], _, h => by simp at h
  | l :: rest, acc, h => by
    rcases h with ⟨l0, hmem, hne, hsplit⟩
    by_cases hl : l = []
    · rw [parseLines, if_pos hl]
      refine parseLines_none rest acc ⟨l0, ?_, hne, hsplit⟩
      rcases List.mem_cons.mp hmem with rfl | hm
      · exact absurd hl hne
      · exact hm
    · rw [parseLines, if_neg hl]
      cases hsp : splitColonSpace l with
      | none => rfl
      | some nv =>
        refine parseLines_none rest _ ⟨l0, ?_, hne, hsplit⟩
        rcases List.mem_cons.mp hmem with rfl | hm
        · rw [hsp] at hsplit; cases hsplit
        · exact hm

/-- The raw read under an unexpired present key returns its bytes. -/
theorem cacheGet_present {t now : Int} {fs : FS} {key data : String} {mt : Int}
    (hq : fsLookup fs key = some ⟨data, mt⟩) (hne : 0 < t → now - mt ≤ t) :
    (cacheGet t now fs key).1 = (data, true) := by
  simp only [cacheGet]
  rw [dCBE_preserve hq hne (key_ne_status key) (key_ne_headers key), hq]

/-- A successful scan produces exactly the CR-stripped raw line pieces. -/
theorem scanTokens_ok : ∀ (ps : List (List Char)), (scanTokens ps).2 = true →
    (scanTokens ps).1 = ps.map dropCR
  | [], _ => rfl
  | p :: ps, h => by
    rw [scanTokens] at h ⊢
    by_cases hp : maxScanTokenSize ≤ charBytesLen p
    · rw [if_pos hp] at h; cases h
    · rw [if_neg hp] at h ⊢
      show dropCR p :: (scanTokens ps).1 = dropCR p :: ps.map dropCR
      rw [scanTokens_ok ps h]

/-- When every line piece is under the token-size limit, the scan succeeds. -/
theorem scanTokens_short : ∀ (ps : List (List Char)),
    (∀ p ∈ ps, charBytesLen p < maxScanTokenSize) →
    scanTokens ps = (ps.map dropCR, true)
  | [], _ => rfl
  | p :: ps, h => by
    rw [scanTokens,
      if_neg (by have := h p (List.mem_cons_self p ps); omega),
      scanTokens_short ps (fun q hq => h q (List.mem_cons_of_mem p hq))]
    rfl

/-- C8: a stored value that does not parse as a decimal integer makes
`GetInt` return `(0, false)`; a stored headers file containing a non-blank
line without the `": "` separator makes `GetHeaders` return `(none, false)`;
both are total functions in this model — malformed data is an absent
entry, not an error. -/
theorem c8_typed_readers_fail :
    (∀ (t now : Int) (fs : FS) (key data : String) (mt : Int),
      fsLookup fs key = some ⟨data, mt⟩ → (0 < t → now - mt ≤ t) →
      atoi data = none →
      (cacheGetInt t now fs key).1 = (0, false)) ∧
    (∀ (t now : Int) (fs : FS) (key data : String) (mt : Int) (l : List Char),
      fsLookup fs key = some ⟨data, mt⟩ → (0 < t → now - mt ≤ t) →
      l ∈ scanLines data.data → l ≠ [] → splitColonSpace l = none →
      (cacheGetHeaders t now fs key).1 = (none, false)) := by
  constructor
  · intro t now fs key data mt hq hne hbad
    simp only [cacheGetInt, cacheGet_present hq hne]
    simp [hbad]
  · intro t now fs key data mt l hq hne hmem hlne hsplit
    have hph : parseHeaders data = none := by
      show (match parseLines (scanTokens (scanLinesRaw data.data)).1 [] with
        | none => (none : Option Headers)
        | some h => if (scanTokens (scanLinesRaw data.data)).2 = true
            then some h else none) = none
      cases hok : (scanTokens (scanLinesRaw data.data)).2 with
      | false =>
        cases hpl : parseLines (scanTokens (scanLinesRaw data.data)).1 [] with
        | none => rfl
        | some hh => rfl
      | true =>
        rw [scanTokens_ok _ hok,
          parseLines_none ((scanLinesRaw data.data).map dropCR) [] ⟨l, hmem, hlne, hsplit⟩]
    simp only [cacheGetHeaders, cacheGet_present hq hne]
    simp [hph]

/-- C8 witness: `"abc"` fails integer parsing; `"nosep"` is a non-blank
line without the separator. -/
theorem c8_witness :
    (cacheGetInt 0 0 [("k", ⟨"abc", 0⟩)] "k").1 = (0, false) ∧
    (cacheGetHeaders 0 0 [("h", ⟨"nosep", 0⟩)] "h").1 = (none, false) :=
  ⟨c8_typed_readers_fail.1 0 0 _ "k" "abc" 0 (by decide) (by omega) (by decide),
   c8_typed_readers_fail.2 0 0 _ "h" "nosep" 0 "nosep".data (by decide) (by omega)
     (by decide) (by decide) (by decide)⟩

/-! ## Claim C3: key derivation -/

theorem strLen_app (a b : String) : (a ++ b).data.length = a.data.length + b.data.length := by
  rw [strData_app, List.length_append]

theorem strLen_pos {a : String} (h : a ≠ "") : 0 < a.data.length :=
  List.length_pos.mpr (fun hn => h (strData_inj (by simpa using hn)))

theorem rawKey_false (r : Request) : rawCacheKey false r = r.url := by
  simp [rawCacheKey, joinBar]

theorem rawKey_true (r : Request) :
    rawCacheKey true r = r.url ++ uaCkSfx r.userAgent r.cookie := by
  unfold rawCacheKey uaCkSfx
  by_cases hu : r.userAgent = "" <;> by_cases hc : r.cookie = "" <;>
    simp [hu, hc, joinBar, String.append_assoc]

theorem uaCkSfx_len (a c : String) :
    (uaCkSfx a c).data.length =
      (if a = "" then 0 else 1 + a.data.length) +
        (if c = "" then 0 else 1 + c.data.length) := by
  have hb : ("|" : String).data.length = 1 := rfl
  unfold uaCkSfx
  by_cases ha : a = "" <;> by_cases hc : c = "" <;>
    simp only [ha, hc, ne_eq, not_true_eq_false, not_false_eq_true, if_false, if_true,
      ite_true, ite_false, strLen_app, List.length_cons, List.length_nil] <;> omega

theorem sfx_inj_ua {a1 a2 c : String} (h : uaCkSfx a1 c = uaCkSfx a2 c) : a1 = a2 := by
  have hl : (uaCkSfx a1 c).data.length = (uaCkSfx a2 c).data.length := by rw [h]
  rw [uaCkSfx_len, uaCkSfx_len] at hl
  by_cases h1 : a1 = "" <;> by_cases h2 : a2 = ""
  · rw [h1, h2]
  · exfalso
    rw [if_pos h1, if_neg h2] at hl
    have := strLen_pos h2
    by_cases hc : c = ""
    · rw [if_pos hc] at hl; omega
    · rw [if_neg hc] at hl; omega
  · exfalso
    rw [if_neg h1, if_pos h2] at hl
    have := strLen_pos h1
    by_cases hc : c = ""
    · rw [if_pos hc] at hl; omega
    · rw [if_neg hc] at hl; omega
  · unfold uaCkSfx at h
    rw [if_pos h1, if_pos h2] at h
    exact strApp_left_cancel (strApp_right_cancel h)

theorem sfx_inj_ck {a c1 c2 : String} (h : uaCkSfx a c1 = uaCkSfx a c2) : c1 = c2 := by
  unfold uaCkSfx at h
  have h' := strApp_left_cancel h
  by_cases h1 : c1 = "" <;> by_cases h2 : c2 = ""
  · rw [h1, h2]
  · exfalso
    rw [h1, if_neg (fun hn : ("" : String) ≠ "" => hn rfl), if_pos h2] at h'
    have hl : ("" : String).data.length = ("|" ++ c2).data.length := by rw [h']
    have := strLen_pos h2
    have hb : ("|" : String).data.length = 1 := rfl
    rw [strLen_app] at hl
    have he : ("" : String).data.length = 0 := rfl
    omega
  · exfalso
    rw [h2, if_neg (fun hn : ("" : String) ≠ "" => hn rfl), if_pos h1] at h'
    have hl : ("|" ++ c1).data.length = ("" : String).data.length := by rw [h']
    have := strLen_pos h1
    have hb : ("|" : String).data.length = 1 := rfl
    rw [strLen_app] at hl
    have he : ("" : String).data.length = 0 := rfl
    omega
  · rw [if_pos h1, if_pos h2] at h'
    exact strApp_left_cancel h'

/-- C3 (amended): key derivation is deterministic — the key is a function
of exactly the URL, User-Agent and Cookie values (the method does not
enter); with uniqueness disabled the key depends on the URL alone; with
uniqueness enabled, changing exactly one of URL, User-Agent or Cookie (the
other two fixed) always changes the joined raw key that is hashed — the
final MD5 key therefore changes except when the two distinct raw keys
collide under MD5, which does happen (see the counterexample). -/
theorem c3_key_derivation :
    (∀ (u : Bool) (r1 r2 : Request), r1.url = r2.url → r1.userAgent = r2.userAgent →
      r1.cookie = r2.cookie → getRequestCacheKey u r1 = getRequestCacheKey u r2) ∧
    (∀ r1 r2 : Request, r1.url = r2.url →
      getRequestCacheKey false r1 = getRequestCacheKey false r2) ∧
    (∀ r1 r2 : Request, r1.userAgent = r2.userAgent → r1.cookie = r2.cookie →
      r1.url ≠ r2.url → rawCacheKey true r1 ≠ rawCacheKey true r2) ∧
    (∀ r1 r2 : Request, r1.url = r2.url → r1.cookie = r2.cookie →
      r1.userAgent ≠ r2.userAgent → rawCacheKey true r1 ≠ rawCacheKey true r2) ∧
    (∀ r1 r2 : Request, r1.url = r2.url → r1.userAgent = r2.userAgent →
      r1.cookie ≠ r2.cookie → rawCacheKey true r1 ≠ rawCacheKey true r2) := by
  refine ⟨?_, ?_, ?_, ?_, ?_⟩
  · intro u r1 r2 h1 h2 h3
    unfold getRequestCacheKey rawCacheKey
    rw [h1, h2, h3]
  · intro r1 r2 h1
    unfold getRequestCacheKey
    rw [rawKey_false, rawKey_false, h1]
  · intro r1 r2 hua hck hurl he
    rw [rawKey_true, rawKey_true, hua, hck] at he
    exact hurl (strApp_right_cancel he)
  · intro r1 r2 hurl hck hua he
    rw [rawKey_true, rawKey_true, hurl, hck] at he
    exact hua (sfx_inj_ua (strApp_left_cancel he))
  · intro r1 r2 hurl hua hck he
    rw [rawKey_true, rawKey_true, hurl, hua] at he
    exact hck (sfx_inj_ck (strApp_left_cancel he))

/-- C3 counterexample: two distinct URLs — a published single-block MD5
collision pair — with identical (empty) User-Agent and Cookie receive the
same cache key with per-user uniqueness enabled, refuting "changing the URL
changes the key". -/
theorem c3_counterexample :
    msgA ≠ msgB ∧
    getRequestCacheKey true ⟨msgA, "GET", "", ""⟩
      = getRequestCacheKey true ⟨msgB, "GET", "", ""⟩ := by
  constructor
  · decide
  · decide

/-- C3 witness: the key ignores the method; single-component changes alter
the raw key; uniqueness off ignores User-Agent and Cookie. -/
theorem c3_witness :
    getRequestCacheKey true ⟨"u", "GET", "a", "b"⟩
      = getRequestCacheKey true ⟨"u", "HEAD", "a", "b"⟩ ∧
    rawCacheKey true ⟨"a", "GET", "x", "y"⟩ ≠ rawCacheKey true ⟨"b", "GET", "x", "y"⟩ ∧
    rawCacheKey true ⟨"u", "GET", "x", "y"⟩ ≠ rawCacheKey true ⟨"u", "GET", "x2", "y"⟩ ∧
    rawCacheKey true ⟨"u", "GET", "x", "y"⟩ ≠ rawCacheKey true ⟨"u", "GET", "x", "y2"⟩ ∧
    getRequestCacheKey false ⟨"u", "GET", "x", "y"⟩
      = getRequestCacheKey false ⟨"u", "POST", "x2", "y2"⟩ :=
  ⟨c3_key_derivation.1 true _ _ rfl rfl rfl,
   c3_key_derivation.2.2.1 _ _ rfl rfl (by decide),
   c3_key_derivation.2.2.2.1 _ _ rfl rfl (by decide),
   c3_key_derivation.2.2.2.2 _ _ rfl rfl (by decide),
   c3_key_derivation.2.1 _ _ rfl⟩

/-! ## Claim C4: safe-method bypass -/

theorem respWriteHeader_headers (w : ResponseW) (st : Int) :
    (respWriteHeader w st).headers = w.headers := by
  unfold respWriteHeader; split <;> rfl

theorem respWrite_headers (w : ResponseW) (d : String) :
    (respWrite w d).headers = w.headers := by
  unfold respWrite; split <;> rfl

/-- C4 (amended): a request whose method — matched case-insensitively — is
not GET, HEAD or OPTIONS bypasses the cache: no store operation is
performed (the trace is empty), the store is left untouched, and the
response carries `X-Cache: MISS` provided the origin response itself has no
`X-Cache` header (origin headers are copied over the tag). -/
theorem c4_safe_method_bypass (cfg : Cfg) (origin : Origin) (now : Int) (r : Request)
    (fs : FS) (h : isNotSafeMethod r.method = true)
    (hx : ∀ resp, origin r = some resp → ∀ p ∈ resp.headers, canonicalKey p.1 ≠ "X-Cache") :
    headersGet (handleRequest cfg origin now r fs).1.headers "X-Cache" = "MISS" ∧
    (handleRequest cfg origin now r fs).2.1 = fs ∧
    (handleRequest cfg origin now r fs).2.2 = [] := by
  rw [handleRequest_bypass h]
  cases ho : origin r with
  | none =>
    rw [proxyRequest_fail now _ false "" (fs, []) ho]
    exact ⟨rfl, rfl, rfl⟩
  | some resp =>
    have hnames : ∀ n ∈ resp.headers.map Prod.fst, canonicalKey n ≠ "X-Cache" := by
      intro n hn
      rcases List.mem_map.mp hn with ⟨p, hp, rfl⟩
      exact hx resp ho p hp
    refine ⟨?_, ?_, ?_⟩
    · show headersGet (proxyRequest origin now r _ false "" (fs, [])).1.headers _ = _
      unfold proxyRequest
      rw [ho]
      simp only [respWrite_headers, respWriteHeader_headers]
      unfold headersGet
      rw [show canonicalKey "X-Cache" = "X-Cache" from rfl, foldl_respSet_other _ _ _ _ hnames]
      rfl
    · show (proxyRequest origin now r _ false "" (fs, [])).2.1 = fs
      rw [proxyRequest_nocache]
    · show (proxyRequest origin now r _ false "" (fs, [])).2.2 = []
      rw [proxyRequest_nocache]

/-- C4 counterexample: the method `"get"` is not in the literal safe set
`{GET, HEAD, OPTIONS}`, yet with a populated store the response is a cache
HIT (not `X-Cache: MISS`) and store reads are performed. -/
theorem c4_counterexample :
    ("get" ∉ (["GET", "HEAD", "OPTIONS"] : List String)) ∧
    headersGet (handleRequest ⟨0, false⟩ (fun _ => none) 0 ⟨"u", "get", "", ""⟩ exFS).1.headers
      "X-Cache" = "HIT" ∧
    (handleRequest ⟨0, false⟩ (fun _ => none) 0 ⟨"u", "get", "", ""⟩ exFS).2.2 ≠ [] := by
  refine ⟨by decide, by decide, by decide⟩

/-- C4 witness: a POST against a fully-cached store. -/
theorem c4_witness :
    isNotSafeMethod "POST" = true ∧
    headersGet (handleRequest ⟨0, false⟩ (fun _ => none) 0 ⟨"u", "POST", "", ""⟩
      exFS).1.headers "X-Cache" = "MISS" ∧
    (handleRequest ⟨0, false⟩ (fun _ => none) 0 ⟨"u", "POST", "", ""⟩ exFS).2.1 = exFS ∧
    (handleRequest ⟨0, false⟩ (fun _ => none) 0 ⟨"u", "POST", "", ""⟩ exFS).2.2 = [] := by
  have hmain := c4_safe_method_bypass ⟨0, false⟩ (fun _ => none) 0 ⟨"u", "POST", "", ""⟩
    exFS (by decide) (fun resp hresp => Option.noConfusion hresp)
  exact ⟨by decide, hmain.1, hmain.2.1, hmain.2.2⟩

/-! ## Claim C6: forwarder failure -/

theorem hric_fs_zero (now : Int) (fs : FS) (tr : List CacheOp) (key : String) :
    (hasRequestInCache 0 now (fs, tr) key).2.1 = fs := by
  simp only [hasRequestInCache, stHas, cacheHas, dCBE_zero]
  split
  · split
    · rfl
    · rfl
  · rfl

/-- C6 (amended): when the origin fetch fails on a request that reaches the
forwarder (a bypass request, or a safe request that missed), the client
receives status 500 with the error body, no store write is performed, and
with TTL = 0 the store is completely unchanged.  (With a positive TTL the
lookup preceding the failed fetch may still delete expired entries — see
the counterexample.) -/
theorem c6_forwarder_failure (cfg : Cfg) (origin : Origin) (now : Int) (r : Request)
    (fs : FS) (hfail : origin r = none)
    (hreach : isNotSafeMethod r.method = true ∨
      (isNotSafeMethod r.method = false ∧
        (hasRequestInCache cfg.timeout now (fs, [])
          (getRequestCacheKey cfg.uniqueByUser r)).1 = false)) :
    (handleRequest cfg origin now r fs).1.status = some 500 ∧
    (handleRequest cfg origin now r fs).1.body = "Failed to fetch data from origin\n" ∧
    (∀ op ∈ (handleRequest cfg origin now r fs).2.2, op.isWrite = false) ∧
    (cfg.timeout = 0 → (handleRequest cfg origin now r fs).2.1 = fs) := by
  rcases hreach with hb | ⟨hm, hc⟩
  · rw [handleRequest_bypass hb, proxyRequest_fail now _ false "" (fs, []) hfail]
    exact ⟨rfl, rfl, fun op hop => absurd hop (by simp), fun _ => rfl⟩
  · rw [handleRequest_miss hm hc,
      proxyRequest_fail now _ true (getRequestCacheKey cfg.uniqueByUser r) _ hfail]
    refine ⟨rfl, rfl, ?_, ?_⟩
    · intro op hop
      rcases hasRequestInCache_trace cfg.timeout now (fs, []) _ op hop with hmem | ⟨k, rfl⟩
      · cases hmem
      · rfl
    · intro ht
      show (hasRequestInCache cfg.timeout now (fs, []) _).2.1 = fs
      rw [ht]
      exact hric_fs_zero now fs [] _

/-- C6 counterexample: with TTL 5 at time 100, the lookup for the GET
deletes the expired cached entries before the origin fetch fails, so the
store state is changed by the failed request. -/
theorem c6_counterexample :
    ((fun _ => none : Origin) exReq = none) ∧
    (handleRequest ⟨5, false⟩ (fun _ => none) 100 exReq exFS).1.status = some 500 ∧
    (handleRequest ⟨5, false⟩ (fun _ => none) 100 exReq exFS).2.1 = [] ∧
    exFS ≠ [] := by
  refine ⟨rfl, by decide, by decide, by decide⟩

/-- C6 witness: a safe GET against the empty store with a failing origin. -/
theorem c6_witness :
    ((fun _ => none : Origin) exReq = none) ∧
    (handleRequest ⟨0, false⟩ (fun _ => none) 0 exReq []).1.status = some 500 ∧
    (handleRequest ⟨0, false⟩ (fun _ => none) 0 exReq []).1.body
      = "Failed to fetch data from origin\n" ∧
    (handleRequest ⟨0, false⟩ (fun _ => none) 0 exReq []).2.1 = [] := by
  have hmain := c6_forwarder_failure ⟨0, false⟩ (fun _ => none) 0 exReq [] rfl
    (Or.inr ⟨by decide, by decide⟩)
  exact ⟨rfl, hmain.1, hmain.2.1, hmain.2.2.2 rfl⟩

/-! ## Decimal round trip (strconv.Itoa / strconv.Atoi) -/

theorem strEta (s : String) : String.mk s.data = s := by cases s; rfl

theorem digitChar_facts (d : Nat) (h : d < 10) :
    isDigitCh (digitChar d) = true ∧ (digitChar d).toNat - 48 = d ∧
    digitChar d ≠ '-' ∧ digitChar d ≠ '+' := by
  interval_cases d <;> exact ⟨rfl, rfl, by decide, by decide⟩

theorem natDigitsRev_lt : ∀ (fuel n : Nat), ∀ d ∈ natDigitsRev fuel n, d < 10
  | 0, _, _, hd => absurd hd (by simp [natDigitsRev])
  | fuel + 1, n, d, hd => by
    unfold natDigitsRev at hd
    by_cases hn : n = 0
    · rw [if_pos hn] at hd; cases hd
    · rw [if_neg hn] at hd
      rcases List.mem_cons.mp hd with rfl | hd2
      · exact Nat.mod_lt n (by omega)
      · exact natDigitsRev_lt fuel (n / 10) d hd2

theorem valLE_cons (d : Nat) (ds : List Nat) : valLE (d :: ds) = d + 10 * valLE ds := rfl

theorem valLE_natDigitsRev : ∀ (fuel n : Nat), n ≤ fuel → valLE (natDigitsRev fuel n) = n
  | 0, n, h => by
    have : n = 0 := by omega
    simp [natDigitsRev, valLE, this]
  | fuel + 1, n, h => by
    unfold natDigitsRev
    by_cases hn : n = 0
    · simp [hn, valLE]
    · rw [if_neg hn, valLE_cons, valLE_natDigitsRev fuel (n / 10) (by omega)]
      exact Nat.mod_add_div n 10

theorem digitsVal_of_digits :
    ∀ (ds : List Nat), (∀ d ∈ ds, d < 10) →
      digitsVal ((ds.reverse).map digitChar) = valLE ds
  | [], _ => rfl
  | d :: rest, h => by
    rw [List.reverse_cons, List.map_append]
    unfold digitsVal
    rw [List.foldl_append]
    have hd := digitChar_facts d (h d (List.mem_cons_self d rest))
    show 10 * digitsVal (rest.reverse.map digitChar) + ((digitChar d).toNat - 48)
      = valLE (d :: rest)
    rw [hd.2.1, digitsVal_of_digits rest (fun x hx => h x (List.mem_cons_of_mem d hx)),
      valLE_cons]
    omega

theorem itoaNat_data (n : Nat) (hn : n ≠ 0) :
    (itoaNat n).data = ((natDigitsRev (n + 1) n).reverse).map digitChar := by
  simp [itoaNat, hn]

theorem itoaNat_all_digits (n : Nat) (hn : n ≠ 0) :
    ∀ c ∈ (itoaNat n).data, isDigitCh c = true ∧ c ≠ '-' ∧ c ≠ '+' := by
  rw [itoaNat_data n hn]
  intro c hc
  rcases List.mem_map.mp hc with ⟨d, hd, rfl⟩
  have := digitChar_facts d (natDigitsRev_lt _ _ d (List.mem_reverse.mp hd))
  exact ⟨this.1, this.2.2.1, this.2.2.2⟩

theorem itoaNat_ne_nil (n : Nat) (hn : n ≠ 0) : (itoaNat n).data ≠ [] := by
  rw [itoaNat_data n hn]
  simp only [ne_eq, List.map_eq_nil_iff, List.reverse_eq_nil_iff]
  unfold natDigitsRev
  rw [if_neg hn]
  simp

theorem digitsVal_itoaNat (n : Nat) (hn : n ≠ 0) : digitsVal (itoaNat n).data = n := by
  rw [itoaNat_data n hn,
    digitsVal_of_digits _ (fun d hd => natDigitsRev_lt _ _ d hd),
    valLE_natDigitsRev (n + 1) n (by omega)]

theorem atoiCore_itoaNat (neg : Bool) (n : Nat) (hn : n ≠ 0) :
    atoiCore neg (itoaNat n).data =
      if neg then (if n ≤ 9223372036854775808 then some (-(n : Int)) else none)
      else (if n ≤ 9223372036854775807 then some ((n : Int)) else none) := by
  unfold atoiCore
  rw [if_neg (itoaNat_ne_nil n hn)]
  have hall : (itoaNat n).data.all isDigitCh = true :=
    List.all_eq_true.mpr (fun c hc => (itoaNat_all_digits n hn c hc).1)
  rw [if_pos hall, digitsVal_itoaNat n hn]

theorem atoi_data_cons (s : String) (c : Char) (rest : List Char) (h : s.data = c :: rest) :
    atoi s = if c = '-' then atoiCore true rest
      else if c = '+' then atoiCore false rest else atoiCore false (c :: rest) := by
  unfold atoi
  rw [h]

theorem atoi_itoa (v : Int) (h1 : -9223372036854775808 ≤ v)
    (h2 : v ≤ 9223372036854775807) : atoi (itoa v) = some v := by
  cases v with
  | ofNat n =>
    show atoi (itoaNat n) = some (Int.ofNat n)
    by_cases hn : n = 0
    · rw [hn]; rfl
    · cases hd : (itoaNat n).data with
      | nil => exact absurd hd (itoaNat_ne_nil n hn)
      | cons c rest =>
        have hfacts := itoaNat_all_digits n hn c (by rw [hd]; exact List.mem_cons_self c rest)
        have h2n : (n : Int) ≤ 9223372036854775807 := h2
        rw [atoi_data_cons _ c rest hd, if_neg hfacts.2.1, if_neg hfacts.2.2, ← hd,
          atoiCore_itoaNat false n hn, if_pos (show n ≤ 9223372036854775807 by omega)]
        rfl
  | negSucc n =>
    show atoi ("-" ++ itoaNat (n + 1)) = some (Int.negSucc n)
    have hdata : ("-" ++ itoaNat (n + 1)).data = '-' :: (itoaNat (n + 1)).data := by
      rw [strData_app]; rfl
    have hle : n + 1 ≤ 9223372036854775808 := by
      have := Int.negSucc_eq n
      omega
    have hns : -((n + 1 : Nat) : Int) = Int.negSucc n := by
      rw [Int.negSucc_eq]
      push_cast
      ring
    rw [atoi_data_cons _ '-' (itoaNat (n + 1)).data hdata, if_pos rfl,
      atoiCore_itoaNat true (n + 1) (by omega), if_pos hle, hns]
    rfl

/-! ## Header serialization round trip -/

theorem dropCR_eq_self : ∀ (l : List Char), l.getLast? ≠ some '\r' → dropCR l = l
  | [], _ => rfl
  | [c], h => by
    have hc : c ≠ '\r' := fun he => h (by simp [he])
    simp [dropCR, hc]
  | c :: c2 :: rest, h => by
    show c :: dropCR (c2 :: rest) = _
    rw [dropCR_eq_self (c2 :: rest) (by rwa [List.getLast?_cons_cons] at h)]

theorem scanRaw_line :
    ∀ (line : List Char), (∀ c ∈ line, c ≠ '\n') → ∀ (rest : List Char),
      scanLinesRaw (line ++ '\n' :: rest) = line :: scanLinesRaw rest
  | [], _, rest => by simp [scanLinesRaw]
  | c :: line', h, rest => by
    have hc : c ≠ '\n' := h c (List.mem_cons_self c line')
    show scanLinesRaw (c :: (line' ++ '\n' :: rest)) = _
    rw [scanLinesRaw, if_neg hc,
      scanRaw_line line' (fun x hx => h x (List.mem_cons_of_mem c hx)) rest]

theorem scanRaw_serializeVals (n : List Char) (hn : ∀ c ∈ n, c ≠ '\n') :
    ∀ (vs : List String), (∀ v ∈ vs, ∀ c ∈ v.data, c ≠ '\n') → ∀ (rest : List Char),
      scanLinesRaw (serializeValsC n vs ++ rest)
        = vs.map (fun v => n ++ ':' :: ' ' :: v.data) ++ scanLinesRaw rest
  | [], _, rest => by simp [serializeValsC]
  | v :: vs', hvs, rest => by
    have hline : ∀ c ∈ n ++ ':' :: ' ' :: v.data, c ≠ '\n' := by
      intro c hc
      rcases List.mem_append.mp hc with hc | hc
      · exact hn c hc
      · rcases List.mem_cons.mp hc with rfl | hc
        · decide
        · rcases List.mem_cons.mp hc with rfl | hc
          · decide
          · exact hvs v (List.mem_cons_self v vs') c hc
    have hshape : serializeValsC n (v :: vs') ++ rest
        = (n ++ ':' :: ' ' :: v.data) ++ '\n' :: (serializeValsC n vs' ++ rest) := by
      show (n ++ ':' :: ' ' :: (v.data ++ '\n' :: serializeValsC n vs')) ++ rest = _
      simp
    rw [hshape, scanRaw_line _ hline,
      scanRaw_serializeVals n hn vs' (fun x hx => hvs x (List.mem_cons_of_mem v hx)) rest]
    rfl

theorem getLast?_line (n : List Char) (v : String) (hv : v.data.getLast? ≠ some '\r') :
    (n ++ ':' :: ' ' :: v.data).getLast? ≠ some '\r' := by
  rw [List.getLast?_append]
  cases hd : v.data with
  | nil => simp
  | cons c rest =>
    rw [hd] at hv
    have h1 : (':' :: ' ' :: c :: rest).getLast? = (c :: rest).getLast? := by
      rw [List.getLast?_cons_cons, List.getLast?_cons_cons]
    rw [h1]
    cases hl : (c :: rest).getLast? with
    | none => simp at hl
    | some x =>
      rw [hl] at hv
      exact hv

theorem split_boundary :
    ∀ (n : List Char), hasColonSpace n = false → ∀ (v : List Char),
      splitColonSpace (n ++ ':' :: ' ' :: v) = some (n, v)
  | [], _, v => by
    show splitColonSpace (':' :: ' ' :: v) = _
    rw [splitColonSpace, if_pos ⟨rfl, rfl⟩]
    rfl
  | c :: n', h, v => by
    rw [hasColonSpace] at h
    have hrec : hasColonSpace n' = false := (Bool.or_eq_false_iff.mp h).2
    have hcond : ¬(c = ':' ∧ startsWithSpace (n' ++ ':' :: ' ' :: v) = true) := by
      rintro ⟨rfl, hsp⟩
      cases n' with
      | nil => simp [startsWithSpace] at hsp
      | cons c2 rest =>
        have hc2 : c2 = ' ' := by
          rw [show (c2 :: rest) ++ ':' :: ' ' :: v = c2 :: (rest ++ ':' :: ' ' :: v) from rfl,
            startsWithSpace] at hsp
          exact eq_of_beq hsp
        rw [hc2] at h
        simp [startsWithSpace] at h
    show splitColonSpace (c :: (n' ++ ':' :: ' ' :: v)) = _
    rw [splitColonSpace, if_neg hcond, split_boundary n' hrec v]

theorem addVal_notMem (k v : String) : ∀ (acc : Headers), k ∉ acc.map Prod.fst →
    addVal acc k v = acc ++ [(k, [v])] := by
  intro acc
  induction acc with
  | nil => intro; rfl
  | cons p rest ih =>
    intro h
    simp only [List.map_cons, List.mem_cons, not_or] at h
    obtain ⟨n, vs⟩ := p
    have hne : n ≠ k := fun he => h.1 he.symm
    rw [addVal, if_neg hne, ih h.2]
    rfl

theorem addVal_last (k v : String) : ∀ (acc : Headers) (vs : List String),
    k ∉ acc.map Prod.fst → addVal (acc ++ [(k, vs)]) k v = acc ++ [(k, vs ++ [v])] := by
  intro acc
  induction acc with
  | nil =>
    intro vs _
    show addVal [(k, vs)] k v = _
    rw [addVal, if_pos rfl]
    rfl
  | cons p rest ih =>
    intro vs h
    simp only [List.map_cons, List.mem_cons, not_or] at h
    obtain ⟨n, nvs⟩ := p
    have hne : n ≠ k := fun he => h.1 he.symm
    show addVal ((n, nvs) :: (rest ++ [(k, vs)])) k v = _
    rw [addVal, if_neg hne, ih vs h.2]
    rfl

theorem line_ne_nil (n : List Char) (v : List Char) : n ++ ':' :: ' ' :: v ≠ [] := by
  simp

theorem parseLines_vals (n : String) (hcanon : canonicalKey n = n)
    (hsep : hasColonSpace n.data = false) :
    ∀ (vs : List String) (done : List String) (acc : Headers)
      (restLines : List (List Char)), n ∉ acc.map Prod.fst →
      parseLines ((vs.map (fun v => n.data ++ ':' :: ' ' :: v.data)) ++ restLines)
        (acc ++ [(n, done)])
        = parseLines restLines (acc ++ [(n, done ++ vs)]) := by
  intro vs
  induction vs with
  | nil =>
    intro done acc restLines _
    simp
  | cons v vs' ih =>
    intro done acc restLines hacc
    rw [List.map_cons, List.cons_append, parseLines,
      if_neg (line_ne_nil n.data v.data), split_boundary n.data hsep v.data]
    show parseLines ((vs'.map (fun v => n.data ++ ':' :: ' ' :: v.data)) ++ restLines)
      (headersAdd (acc ++ [(n, done)]) (String.mk n.data) (String.mk v.data)) = _
    have hadd : headersAdd (acc ++ [(n, done)]) (String.mk n.data) (String.mk v.data)
        = acc ++ [(n, done ++ [v])] := by
      unfold headersAdd
      rw [strEta, strEta, hcanon, addVal_last n v acc done hacc]
    rw [hadd, ih (done ++ [v]) acc restLines hacc, List.append_assoc]
    rfl

theorem charBytesLen_append (a b : List Char) :
    charBytesLen (a ++ b) = charBytesLen a + charBytesLen b := by
  simp [charBytesLen]

theorem charBytesLen_line (n v : List Char) :
    charBytesLen (n ++ ':' :: ' ' :: v) = charBytesLen n + 2 + charBytesLen v := by
  rw [charBytesLen_append]
  have h2 : charBytesLen (':' :: ' ' :: v) = 2 + charBytesLen v := by
    show ((':' :: ' ' :: v).map (fun c => (utf8Char c).length)).sum = 2 + charBytesLen v
    rw [List.map_cons, List.map_cons, List.sum_cons, List.sum_cons]
    show 1 + (1 + charBytesLen v) = 2 + charBytesLen v
    omega
  rw [h2]
  omega

theorem scanRaw_serializeHeaders :
    ∀ (h : Headers),
      (∀ p ∈ h, (∀ c ∈ p.1.data, c ≠ '\n') ∧ ∀ v ∈ p.2, ∀ c ∈ v.data, c ≠ '\n') →
      scanLinesRaw (serializeHeadersC h)
        = (h.map (fun p => p.2.map (fun v => p.1.data ++ ':' :: ' ' :: v.data))).flatten
  | [], _ => rfl
  | (n, vs) :: h', hc => by
    show scanLinesRaw (serializeValsC n.data vs ++ serializeHeadersC h') = _
    rw [scanRaw_serializeVals n.data (hc (n, vs) (List.mem_cons_self _ _)).1 vs
      (hc (n, vs) (List.mem_cons_self _ _)).2 _,
      scanRaw_serializeHeaders h' (fun p hp => hc p (List.mem_cons_of_mem _ hp))]
    rfl

theorem parseLines_serialized :
    ∀ (h : Headers) (acc : Headers),
      (h.map Prod.fst).Nodup →
      (∀ p ∈ h, goodName p.1 ∧ p.2 ≠ [] ∧ ∀ v ∈ p.2, goodValue v) →
      (∀ p ∈ h, p.1 ∉ acc.map Prod.fst) →
      parseLines
        ((h.map (fun p => p.2.map (fun v => p.1.data ++ ':' :: ' ' :: v.data))).flatten) acc
        = some (acc ++ h)
  | [], acc, _, _, _ => by simp [parseLines]
  | (n, vs) :: h', acc, hnd, hwf, hdisj => by
    obtain ⟨hgood, hvne, hgv⟩ := hwf (n, vs) (List.mem_cons_self _ _)
    obtain ⟨hcanon, hsep, hnl⟩ := hgood
    cases vs with
    | nil => exact absurd rfl hvne
    | cons v vs' =>
      show parseLines (((v :: vs').map (fun v => n.data ++ ':' :: ' ' :: v.data))
          ++ (h'.map (fun p => p.2.map (fun v => p.1.data ++ ':' :: ' ' :: v.data))).flatten)
        acc = _
      rw [List.map_cons, List.cons_append, parseLines,
        if_neg (line_ne_nil n.data v.data), split_boundary n.data hsep v.data]
      show parseLines ((vs'.map (fun v => n.data ++ ':' :: ' ' :: v.data))
          ++ (h'.map (fun p => p.2.map (fun v => p.1.data ++ ':' :: ' ' :: v.data))).flatten)
        (headersAdd acc (String.mk n.data) (String.mk v.data)) = _
      have hadd : headersAdd acc (String.mk n.data) (String.mk v.data) = acc ++ [(n, [v])] := by
        unfold headersAdd
        rw [strEta, strEta, hcanon,
          addVal_notMem n v acc (hdisj (n, v :: vs') (List.mem_cons_self _ _))]
      rw [hadd, parseLines_vals n hcanon hsep vs' [v] acc _
        (hdisj (n, v :: vs') (List.mem_cons_self _ _))]
      have hrec := parseLines_serialized h' (acc ++ [(n, v :: vs')])
        (by simpa using (List.nodup_cons.mp (by simpa using hnd)).2)
        (fun p hp => hwf p (List.mem_cons_of_mem _ hp))
        (fun p hp => by
          simp only [List.map_append, List.mem_append, List.map_cons, List.map_nil, not_or]
          refine ⟨hdisj p (List.mem_cons_of_mem _ hp), ?_⟩
          have hn2 : p.1 ∈ h'.map Prod.fst := List.mem_map_of_mem Prod.fst hp
          have hnmem : n ∉ h'.map Prod.fst := (List.nodup_cons.mp (by simpa using hnd)).1
          simp only [List.mem_singleton]
          exact fun he => hnmem (he ▸ hn2))
      rw [show ([v] ++ vs' : List String) = v :: vs' from rfl, hrec, List.append_assoc]
      rfl

/-- Well-formed header maps whose serialized lines stay under the scanner's
64 KiB token limit survive the serialize/parse round trip exactly. -/
theorem parse_serialize (h : Headers) (hwf : wfHeaders h) (hfit : linesFit h) :
    parseHeaders (serializeHeaders h) = some h := by
  have hnl : ∀ p ∈ h, (∀ c ∈ p.1.data, c ≠ '\n') ∧ ∀ v ∈ p.2, ∀ c ∈ v.data, c ≠ '\n' :=
    fun p hp => ⟨(hwf.2 p hp).1.2.2, fun v hv => ((hwf.2 p hp).2.2 v hv).2⟩
  set L := (h.map (fun p => p.2.map (fun v => p.1.data ++ ':' :: ' ' :: v.data))).flatten
    with hL
  have hform : ∀ l ∈ L, ∃ p ∈ h, ∃ v ∈ p.2, l = p.1.data ++ ':' :: ' ' :: v.data := by
    intro l hl
    rw [hL] at hl
    rcases List.mem_flatten.mp hl with ⟨sub, hsub, hlsub⟩
    rcases List.mem_map.mp hsub with ⟨p, hp, rfl⟩
    rcases List.mem_map.mp hlsub with ⟨v, hv, rfl⟩
    exact ⟨p, hp, v, hv, rfl⟩
  have hshort : ∀ l ∈ L, charBytesLen l < maxScanTokenSize := by
    intro l hl
    rcases hform l hl with ⟨p, hp, v, hv, rfl⟩
    rw [charBytesLen_line]
    exact hfit p hp v hv
  have hdrop : L.map dropCR = L := by
    have hcongr : L.map dropCR = L.map id :=
      List.map_congr_left (fun l hl => by
        rcases hform l hl with ⟨p, hp, v, hv, rfl⟩
        exact dropCR_eq_self _ (getLast?_line p.1.data v ((hwf.2 p hp).2.2 v hv).1))
    rw [hcongr, List.map_id]
  have hraw := scanRaw_serializeHeaders h hnl
  have hscan : scanTokens (scanLinesRaw (serializeHeadersC h)) = (L, true) := by
    rw [hraw, ← hL, scanTokens_short L hshort, hdrop]
  have hpl := parseLines_serialized h [] hwf.1 hwf.2 (fun p _ => by simp)
  rw [← hL] at hpl
  unfold parseHeaders serializeHeaders
  rw [show (String.mk (serializeHeadersC h)).data = serializeHeadersC h from rfl]
  simp [hscan, hpl]

/-! ## Claim C7: store round trip -/

/-- C7 (amended): `Set`/`Get` reproduce any byte payload exactly, and
`SetInt`/`GetInt` any 64-bit integer; `SetHeaders`/`GetHeaders` reproduce a
header map exactly when it is well-formed — distinct canonical names
without newlines or the `": "` separator, nonempty value lists, values
without newlines or trailing carriage returns (origin responses parsed by
Go's HTTP client have this shape) — and every serialized `name: value`
line stays under the scanner's 64 KiB token limit, since an over-long line
makes `bufio.Scanner` fail with `ErrTooLong` and `GetHeaders` report a
miss.  An arbitrary header map need not survive (see the
counterexample). -/
theorem c7_round_trip :
    (∀ (t now : Int) (fs : FS) (key d : String),
      (cacheGet t now (cacheSet now fs key d) key).1 = (d, true)) ∧
    (∀ (t now : Int) (fs : FS) (key : String) (v : Int),
      -9223372036854775808 ≤ v → v ≤ 9223372036854775807 →
      (cacheGetInt t now (cacheSetInt now fs key v) key).1 = (v, true)) ∧
    (∀ (t now : Int) (fs : FS) (key : String) (h : Headers), wfHeaders h → linesFit h →
      (cacheGetHeaders t now (cacheSetHeaders now fs key h) key).1 = (some h, true)) := by
  have hbytes : ∀ (t now : Int) (fs : FS) (key d : String),
      (cacheGet t now (cacheSet now fs key d) key).1 = (d, true) := by
    intro t now fs key d
    exact cacheGet_present
      (show fsLookup (cacheSet now fs key d) key = some ⟨d, now⟩ by
        simp [cacheSet, fsWrite, fsLookup])
      (fun ht => by omega)
  refine ⟨hbytes, ?_, ?_⟩
  · intro t now fs key v h1 h2
    have hget := hbytes t now fs key (itoa v)
    simp only [cacheGetInt, cacheSetInt, cacheSet] at hget ⊢
    simp [hget, atoi_itoa v h1 h2]
  · intro t now fs key h hwf hfit
    have hget := hbytes t now fs key (serializeHeaders h)
    simp only [cacheGetHeaders, cacheSetHeaders, cacheSet] at hget ⊢
    simp [hget, parse_serialize h hwf hfit]

/-- C7 counterexample: a header value containing a newline is serialized as
two lines; the second lacks the separator, so the read reports a missing
entry instead of reproducing the stored header map. -/
theorem c7_counterexample :
    (cacheGetHeaders 0 0 (cacheSetHeaders 0 [] "k" [("A", ["x\ny"])]) "k").1
      = (none, false) ∧
    ((none : Option Headers), false) ≠ (some [("A", ["x\ny"])], true) := by
  exact ⟨by decide, by decide⟩

/-- C7 witness: a byte payload, a status code and a well-formed header map
all survive the round trip. -/
theorem c7_witness :
    (cacheGet 0 0 (cacheSet 0 [] "k" "payload") "k").1 = ("payload", true) ∧
    (cacheGetInt 0 0 (cacheSetInt 0 [] "k" 200) "k").1 = (200, true) ∧
    (cacheGetHeaders 0 0 (cacheSetHeaders 0 [] "k" [("Content-Type", ["text/html"])]) "k").1
      = (some [("Content-Type", ["text/html"])], true) :=
  ⟨c7_round_trip.1 0 0 [] "k" "payload",
   c7_round_trip.2.1 0 0 [] "k" 200 (by omega) (by omega),
   c7_round_trip.2.2 0 0 [] "k" [("Content-Type", ["text/html"])] (by decide) (by decide)⟩

/-! ## Claim C2: hit serving -/

theorem responseFromCache_fst (t now : Int) (w : ResponseW) (key : String) (g : FS)
    (tr tr' : List CacheOp) :
    (responseFromCache t now w key (g, tr)).1 = (responseFromCache t now w key (g, tr')).1 := rfl

/-- C2 (amended): a safe-method request whose key has all three sub-values
cached (unexpired, the status in 64-bit range, the headers well-formed with
every serialized line under the scanner's 64 KiB token limit and without an
`X-Cache` name) is served from the store with the cached status code, the
cached body bytes, and `X-Cache: HIT` — but each cached header name carries
only the FIRST cached value (`w.Header().Set(name, headers.Get(name))`), so
multi-valued headers are truncated (see the counterexample). -/
theorem c2_hit_serving (cfg : Cfg) (origin : Origin) (now : Int) (r : Request) (fs : FS)
    (body : String) (status : Int) (hdrs : Headers) (mt1 mt2 mt3 : Int)
    (hm : isNotSafeMethod r.method = false)
    (h1 : fsLookup fs (getRequestCacheKey cfg.uniqueByUser r) = some ⟨body, mt1⟩)
    (h2 : fsLookup fs (getRequestCacheKey cfg.uniqueByUser r ++ "-status")
      = some ⟨itoa status, mt2⟩)
    (h3 : fsLookup fs (getRequestCacheKey cfg.uniqueByUser r ++ "-headers")
      = some ⟨serializeHeaders hdrs, mt3⟩)
    (u1 : 0 < cfg.timeout → now - mt1 ≤ cfg.timeout)
    (u2 : 0 < cfg.timeout → now - mt2 ≤ cfg.timeout)
    (u3 : 0 < cfg.timeout → now - mt3 ≤ cfg.timeout)
    (hwf : wfHeaders hdrs)
    (hfit : linesFit hdrs)
    (hnx : ∀ p ∈ hdrs, p.1 ≠ "X-Cache")
    (hs1 : -9223372036854775808 ≤ status) (hs2 : status ≤ 9223372036854775807) :
    (handleRequest cfg origin now r fs).1
      = ⟨("X-Cache", ["HIT"]) :: hdrs.map (fun p => (p.1, [p.2.headD ""])),
         some status, body⟩ := by
  have noop : ∀ {g : FS},
      fsLookup g (getRequestCacheKey cfg.uniqueByUser r) = some ⟨body, mt1⟩ →
      fsLookup g (getRequestCacheKey cfg.uniqueByUser r ++ "-status")
        = some ⟨itoa status, mt2⟩ →
      fsLookup g (getRequestCacheKey cfg.uniqueByUser r ++ "-headers")
        = some ⟨serializeHeaders hdrs, mt3⟩ →
      deleteCacheByExpiration cfg.timeout now g (getRequestCacheKey cfg.uniqueByUser r) = g :=
    fun hb hs hh => dCBE_noop hb u1 hs u2 hh u3
  set t := cfg.timeout with ht
  set K := getRequestCacheKey cfg.uniqueByUser r with hKdef
  have dS1 : K ≠ (K ++ "-status") ++ "-status" :=
    ne_k_app_app K (strApp_ne_empty _ (by decide))
  have dS2 : K ≠ (K ++ "-status") ++ "-headers" :=
    ne_k_app_app K (strApp_ne_empty _ (by decide))
  have dS3 : K ++ "-status" ≠ (K ++ "-status") ++ "-status" := strNe_append_right (by decide)
  have dS4 : K ++ "-status" ≠ (K ++ "-status") ++ "-headers" := strNe_append_right (by decide)
  have dS5 : K ++ "-headers" ≠ (K ++ "-status") ++ "-status" := ne_app_app K (by decide)
  have dS6 : K ++ "-headers" ≠ (K ++ "-status") ++ "-headers" := ne_app_app K (by decide)
  have dH1 : K ≠ (K ++ "-headers") ++ "-status" :=
    ne_k_app_app K (strApp_ne_empty _ (by decide))
  have dH2 : K ≠ (K ++ "-headers") ++ "-headers" :=
    ne_k_app_app K (strApp_ne_empty _ (by decide))
  have dH3 : K ++ "-status" ≠ (K ++ "-headers") ++ "-status" := ne_app_app K (by decide)
  have dH4 : K ++ "-status" ≠ (K ++ "-headers") ++ "-headers" := ne_app_app K (by decide)
  have dH5 : K ++ "-headers" ≠ (K ++ "-headers") ++ "-status" := strNe_append_right (by decide)
  have dH6 : K ++ "-headers" ≠ (K ++ "-headers") ++ "-headers" := strNe_append_right (by decide)
  set fs2 := deleteCacheByExpiration t now fs (K ++ "-status") with hfs2
  have l2k : fsLookup fs2 K = some ⟨body, mt1⟩ := by
    rw [hfs2, dCBE_preserve h2 u2 dS1 dS2]; exact h1
  have l2s : fsLookup fs2 (K ++ "-status") = some ⟨itoa status, mt2⟩ := by
    rw [hfs2, dCBE_preserve h2 u2 dS3 dS4]; exact h2
  have l2h : fsLookup fs2 (K ++ "-headers") = some ⟨serializeHeaders hdrs, mt3⟩ := by
    rw [hfs2, dCBE_preserve h2 u2 dS5 dS6]; exact h3
  set fs3 := deleteCacheByExpiration t now fs2 (K ++ "-headers") with hfs3
  have l3k : fsLookup fs3 K = some ⟨body, mt1⟩ := by
    rw [hfs3, dCBE_preserve l2h u3 dH1 dH2]; exact l2k
  have l3s : fsLookup fs3 (K ++ "-status") = some ⟨itoa status, mt2⟩ := by
    rw [hfs3, dCBE_preserve l2h u3 dH3 dH4]; exact l2s
  have l3h : fsLookup fs3 (K ++ "-headers") = some ⟨serializeHeaders hdrs, mt3⟩ := by
    rw [hfs3, dCBE_preserve l2h u3 dH5 dH6]; exact l2h
  have e1 : cacheHas t now fs K = (true, fs) := by
    show ((fsLookup (deleteCacheByExpiration t now fs K) K).isSome,
      deleteCacheByExpiration t now fs K) = (true, fs)
    rw [noop h1 h2 h3, h1]
    rfl
  have e2 : cacheHas t now fs (K ++ "-status") = (true, fs2) := by
    show ((fsLookup fs2 (K ++ "-status")).isSome, fs2) = (true, fs2)
    rw [l2s]
    rfl
  have e3 : cacheHas t now fs2 (K ++ "-headers") = (true, fs3) := by
    show ((fsLookup fs3 (K ++ "-headers")).isSome, fs3) = (true, fs3)
    rw [l3h]
    rfl
  have hHas : hasRequestInCache t now (fs, []) K
      = (true, (fs3, [CacheOp.hasOp K, CacheOp.hasOp (K ++ "-status"),
          CacheOp.hasOp (K ++ "-headers")])) := by
    simp only [hasRequestInCache, stHas, e1, e2, e3]
    rfl
  rw [handleRequest_hit hm (by rw [← hKdef, ← ht, hHas])]
  rw [← hKdef, ← ht, hHas]
  set fs4 := deleteCacheByExpiration t now fs3 (K ++ "-headers") with hfs4
  have l4k : fsLookup fs4 K = some ⟨body, mt1⟩ := by
    rw [hfs4, dCBE_preserve l3h u3 dH1 dH2]; exact l3k
  have l4s : fsLookup fs4 (K ++ "-status") = some ⟨itoa status, mt2⟩ := by
    rw [hfs4, dCBE_preserve l3h u3 dH3 dH4]; exact l3s
  have eG : cacheGet t now fs3 K = ((body, true), fs3) := by
    show (match fsLookup (deleteCacheByExpiration t now fs3 K) K with
      | none => (("", false), deleteCacheByExpiration t now fs3 K)
      | some e => ((e.data, true), deleteCacheByExpiration t now fs3 K)) = _
    rw [noop l3k l3s l3h, l3k]
  have eH : cacheGetHeaders t now fs3 (K ++ "-headers") = ((some hdrs, true), fs4) := by
    have hraw : cacheGet t now fs3 (K ++ "-headers") = ((serializeHeaders hdrs, true), fs4) := by
      show (match fsLookup fs4 (K ++ "-headers") with
        | none => (("", false), fs4)
        | some e => ((e.data, true), fs4)) = _
      rw [show fsLookup fs4 (K ++ "-headers")
        = some ⟨serializeHeaders hdrs, mt3⟩ by
          rw [hfs4, dCBE_preserve l3h u3 dH5 dH6]; exact l3h]
    simp only [cacheGetHeaders, hraw, parse_serialize hdrs hwf hfit]
    rfl
  set fs5 := deleteCacheByExpiration t now fs4 (K ++ "-status") with hfs5
  have eI : cacheGetInt t now fs4 (K ++ "-status") = ((status, true), fs5) := by
    have hraw : cacheGet t now fs4 (K ++ "-status") = ((itoa status, true), fs5) := by
      show (match fsLookup fs5 (K ++ "-status") with
        | none => (("", false), fs5)
        | some e => ((e.data, true), fs5)) = _
      rw [show fsLookup fs5 (K ++ "-status") = some ⟨itoa status, mt2⟩ by
        rw [hfs5, dCBE_preserve l4s u2 dS3 dS4]; exact l4s]
    simp only [cacheGetInt, hraw, atoi_itoa status hs1 hs2]
    rfl
  simp only [responseFromCache, stGet, stGetHeaders, stGetInt, eG, eH, eI]
  have hw1 : respSetHeader ResponseW.empty "X-Cache" "HIT"
      = ⟨[("X-Cache", ["HIT"])], none, ""⟩ := rfl
  have hcanon : ∀ n ∈ hdrs.map Prod.fst, canonicalKey n = n := by
    intro n hn
    rcases List.mem_map.mp hn with ⟨p, hp, rfl⟩
    exact (hwf.2 p hp).1.1
  have hfresh : ∀ n ∈ hdrs.map Prod.fst,
      n ∉ (⟨[("X-Cache", ["HIT"])], none, ""⟩ : ResponseW).headers.map Prod.fst := by
    intro n hn
    rcases List.mem_map.mp hn with ⟨p, hp, rfl⟩
    simpa using hnx p hp
  have hfold := foldl_respSet_append (hdrs.map Prod.fst) (fun n => headersGet hdrs n)
    ⟨[("X-Cache", ["HIT"])], none, ""⟩ hwf.1 hcanon hfresh
  have hfoldsb := foldl_respSet_status (hdrs.map Prod.fst) (fun n => headersGet hdrs n)
    ⟨[("X-Cache", ["HIT"])], none, ""⟩
  set wF := (hdrs.map Prod.fst).foldl
    (fun w n => respSetHeader w n (headersGet hdrs n))
    (⟨[("X-Cache", ["HIT"])], none, ""⟩ : ResponseW) with hwF
  have hmapeq : (hdrs.map Prod.fst).map (fun n => (n, [headersGet hdrs n]))
      = hdrs.map (fun p => (p.1, [p.2.headD ""])) := by
    rw [List.map_map]
    refine List.map_congr_left (fun p hp => ?_)
    show (p.1, [headersGet hdrs p.1]) = (p.1, [p.2.headD ""])
    have : headersGet hdrs p.1 = p.2.headD "" := by
      unfold headersGet
      rw [(hwf.2 p hp).1.1, lookupVals_of_mem hwf.1 hp]
    rw [this]
  have hwFeq : wF = ⟨("X-Cache", ["HIT"]) :: hdrs.map (fun p => (p.1, [p.2.headD ""])),
      none, ""⟩ := by
    have hc : wF = ⟨wF.headers, wF.status, wF.body⟩ := rfl
    rw [hc, hwF]
    rw [hfold, hfoldsb.1, hfoldsb.2, hmapeq]
    rfl
  rw [hw1, ← hwF, hwFeq]
  rfl

/-- C2 counterexample: the cached origin response carries `Set-Cookie` with
two values, but the served hit response carries only the first — the served
header set is not the cached header set. -/
theorem c2_counterexample :
    (handleRequest ⟨0, false⟩ (fun _ => none) 0 exReq exFS).1.headers
      = [("X-Cache", ["HIT"]), ("Set-Cookie", ["a"])] ∧
    parseHeaders "Set-Cookie: a\nSet-Cookie: b\n" = some [("Set-Cookie", ["a", "b"])] ∧
    (["a"] : List String) ≠ ["a", "b"] := by
  exact ⟨by decide, by decide, by decide⟩

/-- C2 witness: a cached entry with a single-valued header map is served
back exactly, tagged HIT. -/
theorem c2_witness :
    (handleRequest ⟨0, false⟩ (fun _ => none) 0 exReq
      [(exKey, ⟨"hello", 3⟩), (exKey ++ "-status", ⟨itoa 200, 3⟩),
       (exKey ++ "-headers", ⟨serializeHeaders [("Content-Type", ["text/html"])], 3⟩)]).1
      = ⟨[("X-Cache", ["HIT"]), ("Content-Type", ["text/html"])], some 200, "hello"⟩ := by
  have hmain := c2_hit_serving ⟨0, false⟩ (fun _ => none) 0 exReq
    [(exKey, ⟨"hello", 3⟩), (exKey ++ "-status", ⟨itoa 200, 3⟩),
     (exKey ++ "-headers", ⟨serializeHeaders [("Content-Type", ["text/html"])], 3⟩)]
    "hello" 200 [("Content-Type", ["text/html"])] 3 3 3
    (by decide) (by decide) (by decide) (by decide)
    (by intro h; omega) (by intro h; omega) (by intro h; omega)
    (by decide) (by decide) (by decide) (by omega) (by omega)
  exact hmain

end CachingProxy
